import Mathlib

set_option autoImplicit false
set_option maxRecDepth 8000

/-!
Verification of the bulletin-structure recovery engine.

Python strings are modelled shallowly as lists of Unicode codepoints
(`PyStr := List Nat`); pure Python string functions become Lean functions
over such lists.  Accent stripping (`unicodedata.normalize("NFD"/"NFKD")`
followed by dropping combining marks) is modelled by a codepoint table
covering the Latin-1 accented letters used in Portuguese text; `str.lower`
/ `str.upper` are modelled on the ASCII and Latin-1 ranges.
-/

namespace Bulletin

/-- A Python string: list of Unicode codepoints. -/
abbrev PyStr := List Nat

/-- Convenience: codepoints of a Lean string literal (for concrete inputs). -/
def pystr (s : String) : PyStr := s.data.map Char.toNat

/-- Python whitespace for `str.strip` / `str.split` (ASCII part). -/
def isSpaceN (n : Nat) : Bool :=
  n == 32 || n == 9 || n == 10 || n == 13 || n == 11 || n == 12

/-- `str.lower` on one codepoint (ASCII + Latin-1 letters). -/
def toLowerN (n : Nat) : Nat :=
  if 65 ≤ n ∧ n ≤ 90 then n + 32
  else if 192 ≤ n ∧ n ≤ 222 ∧ n ≠ 215 then n + 32
  else n

/-- `str.upper` on one codepoint (ASCII + Latin-1 letters). -/
def toUpperN (n : Nat) : Nat :=
  if 97 ≤ n ∧ n ≤ 122 then n - 32
  else if 224 ≤ n ∧ n ≤ 254 ∧ n ≠ 247 then n - 32
  else n

/-- NFD-decompose and drop combining marks, on one codepoint: maps the
accented Latin-1 letters used in Portuguese to their base letter. -/
def foldAccentN (n : Nat) : Nat :=
  if n = 224 ∨ n = 225 ∨ n = 226 ∨ n = 227 then 97
  else if n = 231 then 99
  else if n = 233 ∨ n = 234 then 101
  else if n = 237 then 105
  else if n = 243 ∨ n = 244 ∨ n = 245 then 111
  else if n = 250 ∨ n = 252 then 117
  else if n = 192 ∨ n = 193 ∨ n = 194 ∨ n = 195 then 65
  else if n = 199 then 67
  else if n = 201 ∨ n = 202 then 69
  else if n = 205 then 73
  else if n = 211 ∨ n = 212 ∨ n = 213 then 79
  else if n = 218 ∨ n = 220 then 85
  else n

/-- `str.isalpha` on one codepoint (ASCII + Latin-1 letters). -/
def isAlphaN (n : Nat) : Bool :=
  (65 ≤ n && n ≤ 90) || (97 ≤ n && n ≤ 122) ||
    (192 ≤ n && n ≤ 255 && n ≠ 215 && n ≠ 247)

/-- `'a' <= ch <= 'z' or '0' <= ch <= '9'`. -/
def isLowerAlnumN (n : Nat) : Bool :=
  (97 ≤ n && n ≤ 122) || (48 ≤ n && n ≤ 57)

/-- ASCII `[A-Za-z0-9]`. -/
def isAsciiAlnumN (n : Nat) : Bool :=
  (65 ≤ n && n ≤ 90) || (97 ≤ n && n ≤ 122) || (48 ≤ n && n ≤ 57)

/-- `str.lstrip`. -/
def stripLeftN (s : PyStr) : PyStr := s.dropWhile isSpaceN

/-- `str.rstrip`. -/
def stripRightN (s : PyStr) : PyStr := (s.reverse.dropWhile isSpaceN).reverse

/-- `str.strip`. -/
def stripN (s : PyStr) : PyStr := stripRightN (stripLeftN s)

/-- Maximal runs of non-whitespace characters, with (possibly empty)
boundary groups; helper for `wordsN`. -/
def groupsN : PyStr → List PyStr
  | [] => [[]]
  | c :: cs =>
    match groupsN cs, isSpaceN c with
    | g :: gs, true => [] :: g :: gs
    | g :: gs, false => (c :: g) :: gs
    | [], _ => []

/-- `str.split()` with no argument: split on whitespace runs, no empty parts. -/
def wordsN (s : PyStr) : List PyStr := (groupsN s).filter (fun w => !w.isEmpty)

/-- `" ".join(ws)`. -/
def joinSpaceN : List PyStr → PyStr
  | [] => []
  | [w] => w
  | w :: ws => w ++ 32 :: joinSpaceN ws

/-- `s.startswith("**")`. -/
def startsBB (s : PyStr) : Bool := s.take 2 == [42, 42]

/-- `s.endswith("**")`. -/
def endsBB (s : PyStr) : Bool := s.reverse.take 2 == [42, 42]

/-- `_normalize_title` from `body_extraction/Serie_III/utils_text.py`:
strip; strip one layer of surrounding `**`; collapse whitespace runs;
drop one trailing colon (with `rstrip`). -/
def normTitleN (s : PyStr) : PyStr :=
  let s1 := stripN s
  let s2 :=
    if startsBB s1 && endsBB s1 && decide (4 ≤ s1.length) then
      stripN ((s1.drop 2).take (s1.length - 4))
    else s1
  let s3 := joinSpaceN (wordsN s2)
  if s3.getLast? == some 58 then stripRightN s3.dropLast else s3

/-- `_tighten` from `utils_text.py`: `s.replace(" ", "")`. -/
def tightenN (s : PyStr) : PyStr := s.filter (fun c => c ≠ 32)

/-- `str.casefold` (modelled as `str.lower` on our codepoint ranges). -/
def casefoldN (s : PyStr) : PyStr := s.map toLowerN

/-- `_letters_only` from `utils_text.py`: strip accents, lowercase, keep
only `[a-z0-9]`. -/
def lettersOnlyN (s : PyStr) : PyStr :=
  ((s.map foldAccentN).map toLowerN).filter isLowerAlnumN

/-- Python `sub in big` substring test. -/
def containsSeg (sub : PyStr) : PyStr → Bool
  | [] => sub.isEmpty
  | c :: cs => sub.isPrefixOf (c :: cs) || containsSeg sub cs

/-- `text[a:b]` on codepoint lists. -/
def sliceN (text : PyStr) (a b : Nat) : PyStr := (text.drop a).take (b - a)

/-- A match confidence or similarity score: an exact nonnegative rational
`num/den` (`den ≠ 0` at every construction site), standing for the Python
float.  Comparisons are by cross-multiplication, so they agree with the
rational values. -/
structure Conf where
  num : Nat
  den : Nat
deriving DecidableEq, Repr

/-- `a < b` on scores. -/
def confLt (a b : Conf) : Bool := a.num * b.den < b.num * a.den

/-- `a ≤ b` on scores. -/
def confLe (a b : Conf) : Bool := a.num * b.den ≤ b.num * a.den

/-- Product of scores. -/
def confMul (a b : Conf) : Conf := ⟨a.num * b.num, a.den * b.den⟩

/-- 1.0, 0.95, 0.90, 0.8 — the cascade's tier confidences. -/
def confOne : Conf := ⟨1, 1⟩
def conf95 : Conf := ⟨19, 20⟩
def conf90 : Conf := ⟨9, 10⟩
def conf80 : Conf := ⟨4, 5⟩
def confZero : Conf := ⟨0, 1⟩

/-- The closed set of span labels produced by the external classifier. -/
inductive Label where
  | orgL | orgStarL | docNameL | sumarioL | junkL | assinaturaL
  | paragraphL | docTextL | otherL
deriving DecidableEq, Repr

/-- A classified span (spaCy entity): label, text and character offsets. -/
structure Ent where
  label : Label
  text : PyStr
  startc : Nat
  endc : Nat
deriving DecidableEq, Repr

/-- `ORG_LIKE_LABELS = {"ORG_LABEL", "ORG_WITH_STAR_LABEL"}`. -/
def isOrgLike (l : Label) : Bool := l == .orgL || l == .orgStarL

/-- Stable insertion (ascending by `startc`) used by `sortByStart`. -/
def insertByStart (e : Ent) : List Ent → List Ent
  | [] => [e]
  | f :: fs => if f.startc < e.startc then f :: insertByStart e fs else e :: f :: fs

/-- Python `sorted(..., key=lambda e: e.start_char)` (stable). -/
def sortByStart (es : List Ent) : List Ent :=
  es.foldl (fun acc e => insertByStart e acc) []

-- ---------------------------------------------------------------------------
-- body_extraction/Serie_III/org_windows.py
-- ---------------------------------------------------------------------------

/-- The local `norm` helper of `_collect_org_windows_from_ents`: strip,
collapse whitespace, then strip one layer of surrounding `**`. -/
def owNorm (s : PyStr) : PyStr :=
  let s1 := joinSpaceN (wordsN (stripN s))
  if startsBB s1 && endsBB s1 && decide (4 ≤ s1.length) then
    stripN ((s1.drop 2).take (s1.length - 4))
  else s1

/-- The local `tight` helper: `norm(s).replace(" ", "").lower()`. -/
def owTight (s : PyStr) : PyStr := ((owNorm s).filter (fun c => c ≠ 32)).map toLowerN

/-- A body window attributed to one organization anchor. -/
structure Window where
  name : PyStr
  startc : Nat
  endc : Nat
deriving DecidableEq, Repr

/-- The codepoints of the reserved window name `"(global)"`. -/
def globalName : PyStr := [40, 103, 108, 111, 98, 97, 108, 41]

/-- Acceptance filter of `_collect_org_windows_from_ents`: quality gates
(≥ 8 alphabetic characters, ≥ 2 tokens) plus a tight equal-or-substring
match against some allowed organization. -/
def owAccept (allowedTight : List PyStr) (e : Ent) : Bool :=
  let candNorm := owNorm e.text
  let lettersLen := (candNorm.filter isAlphaN).length
  let tokenCount := (wordsN candNorm).length
  if lettersLen < 8 || tokenCount < 2 then false
  else
    let candTight := owTight e.text
    allowedTight.any (fun t =>
      candTight == t || containsSeg candTight t || containsSeg t candTight)

/-- Windows from consecutive accepted anchors: each runs from its own
start to the next anchor's start; the last runs to the end of the body. -/
def mkWindows : List Ent → Nat → List Window
  | [], _ => []
  | [e], len => [⟨e.text, e.startc, len⟩]
  | e :: f :: rest, len => ⟨e.text, e.startc, f.startc⟩ :: mkWindows (f :: rest) len

/-- `_collect_org_windows_from_ents` from `org_windows.py`. -/
def collectOrgWindows (ents : List Ent) (bodyLen : Nat) (allowedOrgs : List PyStr) :
    List Window :=
  let allowed := (allowedOrgs.map owNorm).filter (fun o => !o.isEmpty)
  let allowedTight := allowed.map owTight
  let entsSorted := sortByStart (ents.filter (fun e => isOrgLike e.label))
  let kept := entsSorted.filter (owAccept allowedTight)
  if kept.isEmpty then [⟨globalName, 0, bodyLen⟩]
  else mkWindows (sortByStart kept) bodyLen

/-- `_simple_token_set`: lowercased whitespace tokens, as a deduplicated
list (first occurrences) standing for a Python set. -/
def tokenSetOf (s : PyStr) : List PyStr :=
  ((wordsN s).map (fun t => t.map toLowerN)).dedup

/-- `_jaccard` on token sets. -/
def jaccardQ (a b : List PyStr) : Conf :=
  if a.isEmpty && b.isEmpty then confZero
  else
    let inter := (a.filter (fun x => b.contains x)).length
    let union := a.length + (b.filter (fun x => !a.contains x)).length
    if union = 0 then confZero else ⟨inter, union⟩

/-- Window-match status of `_match_org_to_window`. -/
inductive WStatus where
  | orgAnchored | orgUnanchored
deriving DecidableEq, Repr

/-- The strict/substring test of `_match_org_to_window` for one window. -/
def strictHit (aTight : PyStr) (w : Window) : Bool :=
  let bTight := ((normTitleN w.name).filter (fun c => c ≠ 32)).map toLowerN
  aTight == bTight || (10 ≤ aTight.length && containsSeg aTight bTight) ||
    (10 ≤ bTight.length && containsSeg bTight aTight)

/-- `_match_org_to_window` from `org_windows.py`. -/
def matchOrgToWindow (orgName : PyStr) (ws : List Window) : Option Nat × WStatus :=
  match ws with
  | [] => (none, .orgUnanchored)
  | w0 :: wrest =>
    if wrest.isEmpty && w0.name == globalName then (some 0, .orgAnchored)
    else
      let aTight := ((normTitleN orgName).filter (fun c => c ≠ 32)).map toLowerN
      match (w0 :: wrest).findIdx? (strictHit aTight) with
      | some i => (some i, .orgAnchored)
      | none =>
        let a := tokenSetOf orgName
        let best := (w0 :: wrest).enum.foldl
          (fun (acc : Option (Nat × Conf)) p =>
            let sc := jaccardQ a (tokenSetOf p.2.name)
            match acc with
            | none => some (p.1, sc)
            | some q => if confLt q.2 sc then some (p.1, sc) else acc)
          none
        match best with
        | none => (none, .orgUnanchored)
        | some q =>
          (some q.1, if confLt confZero q.2 then .orgAnchored else .orgUnanchored)

-- ---------------------------------------------------------------------------
-- body_extraction/Serie_III/doc_type_match.py
-- ---------------------------------------------------------------------------

/-- A payload item (`items[...]` of the Serie III payload). -/
structure PItem where
  paragraphId : Option Int
  orgIds : List Int
  docName : Option PyStr
deriving DecidableEq, Repr

/-- `_doc_type_key`: Python's `hash(org_ids)` is modelled by the tuple
itself. -/
abbrev KeyT := Int × List Int × PyStr

def docTypeKey (it : PItem) : KeyT :=
  (it.paragraphId.getD (-1), it.orgIds, normTitleN (it.docName.getD []))

/-- `canon_norm`: `_normalize_title(s).casefold()`. -/
def canonNorm (s : PyStr) : PyStr := casefoldN (normTitleN s)

/-- `canon_tight`: `_tighten(_normalize_title(s)).casefold()`. -/
def canonTight (s : PyStr) : PyStr := casefoldN (tightenN (normTitleN s))

/-- `canon_letters`: `_letters_only(_normalize_title(s))`. -/
def canonLetters (s : PyStr) : PyStr := lettersOnlyN (normTitleN s)

structure PayloadTitle where
  key : KeyT
  title : PyStr
  norm : PyStr
  tight : PyStr
  letters : PyStr
deriving DecidableEq, Repr

structure BodyTitle where
  startc : Nat
  endc : Nat
  title : PyStr
  norm : PyStr
  tight : PyStr
  letters : PyStr
deriving DecidableEq, Repr

def payloadTitlesOf (items : List PItem) : List PayloadTitle :=
  items.filterMap (fun it =>
    let title := normTitleN (it.docName.getD [])
    if title.isEmpty then none
    else some ⟨docTypeKey it, title, canonNorm title, canonTight title, canonLetters title⟩)

def bodyTitlesOf (ents : List Ent) : List BodyTitle :=
  ents.filterMap (fun e =>
    if e.label == .docNameL then
      let tn := normTitleN e.text
      if tn.isEmpty then none
      else some ⟨e.startc, e.endc, tn, canonNorm tn, canonTight tn, canonLetters tn⟩
    else none)

/-- A recorded match: body span offsets, window index, tier confidence. -/
structure MInfo where
  startc : Nat
  endc : Nat
  windowIdx : Option Nat
  confidence : Conf
deriving DecidableEq, Repr

/-- `_locate_window`. -/
def locateWindow (pos : Nat) (ws : List Window) : Option Nat :=
  ws.findIdx? (fun w => w.startc ≤ pos && pos < w.endc)

/-- The `matches` dict and the `claimed_positions` set. -/
abbrev MState := List (KeyT × Option MInfo) × List (Nat × Nat)

def mLookup : List (KeyT × Option MInfo) → KeyT → Option (Option MInfo)
  | [], _ => none
  | (k', v') :: rest, k => if k' = k then some v' else mLookup rest k

def mUpdate : List (KeyT × Option MInfo) → KeyT → Option MInfo → List (KeyT × Option MInfo)
  | [], _, _ => []
  | (k', v') :: rest, k, v =>
    if k' = k then (k', v) :: rest else (k', v') :: mUpdate rest k v

def isMatchedSt (m : List (KeyT × Option MInfo)) (k : KeyT) : Bool :=
  match mLookup m k with
  | some (some _) => true
  | _ => false

/-- `claim`: record the span as claimed and store the match. -/
def mClaim (st : MState) (k : KeyT) (bt : BodyTitle) (conf : Conf) (ws : List Window) :
    MState :=
  (mUpdate st.1 k (some ⟨bt.startc, bt.endc, locateWindow bt.startc ws, conf⟩),
    (bt.startc, bt.endc) :: st.2)

/-- One of matching passes 1–3: for each payload title (optionally skipping
ones already matched), claim the first unclaimed body title satisfying
`cond`, with confidence `conf`. -/
def passRun (skipMatched : Bool) (cond : PayloadTitle → BodyTitle → Bool) (conf : Conf)
    (ws : List Window) (bts : List BodyTitle) (pts : List PayloadTitle)
    (st : MState) : MState :=
  pts.foldl (fun st pt =>
    if skipMatched && isMatchedSt st.1 pt.key then st
    else
      match bts.find? (fun bt => !st.2.contains (bt.startc, bt.endc) && cond pt bt) with
      | some bt => mClaim st pt.key bt conf ws
      | none => st) st

def cond1 (pt : PayloadTitle) (bt : BodyTitle) : Bool :=
  bt.norm == pt.norm && !bt.norm.isEmpty

def cond2 (pt : PayloadTitle) (bt : BodyTitle) : Bool :=
  bt.tight == pt.tight && !bt.tight.isEmpty

def cond3 (pt : PayloadTitle) (bt : BodyTitle) : Bool :=
  !bt.letters.isEmpty && bt.letters == pt.letters

/-- Stable insertion (descending by letters length) for pass 4's sort. -/
def insertDescLen (pt : PayloadTitle) : List PayloadTitle → List PayloadTitle
  | [] => [pt]
  | q :: qs =>
    if q.letters.length < pt.letters.length then pt :: q :: qs
    else q :: insertDescLen pt qs

def sortDescLen (pts : List PayloadTitle) : List PayloadTitle :=
  pts.foldl (fun acc pt => insertDescLen pt acc) []

/-- One body-title step of pass 4's best-candidate scan: skip claimed or
letters-empty titles; on containment with ratio ≥ 0.80 and a strictly
better score, remember the candidate. -/
def pass4Step (claimed : List (Nat × Nat)) (a : PyStr)
    (acc : Option (BodyTitle × Conf)) (bt : BodyTitle) : Option (BodyTitle × Conf) :=
  if claimed.contains (bt.startc, bt.endc) then acc
  else if bt.letters.isEmpty then acc
  else if containsSeg a bt.letters || containsSeg bt.letters a then
    let shorter := min a.length bt.letters.length
    let longer := max a.length bt.letters.length
    let score : Conf := if longer = 0 then confZero else ⟨shorter, longer⟩
    let bestScore := match acc with
      | some p => p.2
      | none => confZero
    if confLe conf80 score && confLt bestScore score then some (bt, score) else acc
  else acc

/-- Pass 4: letters-only containment with ratio ≥ 0.80, best score wins,
confidence `0.8 × score`. -/
def pass4 (ws : List Window) (bts : List BodyTitle) (pts : List PayloadTitle)
    (st : MState) : MState :=
  (sortDescLen pts).foldl (fun st pt =>
    if isMatchedSt st.1 pt.key then st
    else if pt.letters.isEmpty then st
    else
      match bts.foldl (pass4Step st.2 pt.letters) none with
      | some p => mClaim st pt.key p.1 (confMul conf80 p.2) ws
      | none => st) st

/-- `_match_doc_type_headers` from `doc_type_match.py`: initialise the
matches dict over deduplicated payload keys, then run the four passes. -/
def matchDocTypeHeaders (ents : List Ent) (items : List PItem) (ws : List Window) :
    List (KeyT × Option MInfo) :=
  let pts := payloadTitlesOf items
  let bts := bodyTitlesOf ents
  let m0 := pts.foldl (fun m pt =>
    if (mLookup m pt.key).isSome then m else m ++ [(pt.key, none)]) []
  let st1 := passRun false cond1 confOne ws bts pts (m0, [])
  let st2 := passRun true cond2 conf95 ws bts pts st1
  let st3 := passRun true cond3 conf90 ws bts pts st2
  (pass4 ws bts pts st3).1

-- ---------------------------------------------------------------------------
-- split_text/split_text.py
-- ---------------------------------------------------------------------------

/-- `_normalize_for_match_letters_only`: NFKD, drop combining marks, keep
only letters, casefold. -/
def lettersFoldSplit (s : PyStr) : PyStr :=
  ((s.map foldAccentN).filter isAlphaN).map toLowerN

inductive SReason where
  | noSumario | noOrgAfterSumario | noRepeatMatch
deriving DecidableEq, Repr

structure SplitOut where
  summary : Option PyStr
  body : PyStr
  reason : Option SReason
deriving DecidableEq, Repr

/-- The boundary-candidate scan: exact letters-only repeat first, then the
contained-strictly-shorter heuristic. -/
def findRepeat (key : PyStr) (cands : List Ent) : Option Ent :=
  match cands.find? (fun e => lettersFoldSplit e.text == key) with
  | some e => some e
  | none =>
    cands.find? (fun e =>
      containsSeg (lettersFoldSplit e.text) key &&
        decide ((lettersFoldSplit e.text).length < key.length))

/-- `split_sumario_and_body` from `split_text.py`. -/
def splitSumarioAndBody (ents : List Ent) (text : PyStr) : SplitOut :=
  match ents.reverse.find? (fun e => e.label == .sumarioL) with
  | none => ⟨none, text, some .noSumario⟩
  | some se =>
    let sEnd := se.endc
    let orgsAfter := ents.filter (fun e => sEnd ≤ e.startc && isOrgLike e.label)
    match orgsAfter with
    | [] => ⟨some (text.drop sEnd), [], some .noOrgAfterSumario⟩
    | first :: restOrgs =>
      let key := lettersFoldSplit first.text
      let boundary :=
        match findRepeat key restOrgs with
        | some e => some e
        | none =>
          findRepeat key (ents.filter (fun e => sEnd ≤ e.startc && e.label == Label.junkL))
      match boundary with
      | none => ⟨some (text.drop sEnd), [], some .noRepeatMatch⟩
      | some be =>
        ⟨some ((text.drop sEnd).take (be.startc - sEnd)), text.drop be.startc, none⟩

-- ---------------------------------------------------------------------------
-- body_extraction/Serie_I_II/normalization.py
-- ---------------------------------------------------------------------------

/-- `s.replace("**", "")` (left-to-right, non-overlapping). -/
def removeBB : PyStr → PyStr
  | 42 :: 42 :: rest => removeBB rest
  | c :: rest => c :: removeBB rest
  | [] => []

/-- `_strip_markdown_bold`: remove `**` markers and strip. -/
def stripBoldN (s : PyStr) : PyStr := stripN (removeBB s)

/-- `_org_key`: strip bold, strip accents, `&`→`E`, drop non-alphanumerics,
uppercase. -/
def orgKeyN (s : PyStr) : PyStr :=
  ((((stripBoldN s).map foldAccentN).map (fun c => if c = 38 then 69 else c)).filter
    isAsciiAlnumN).map toUpperN

-- ---------------------------------------------------------------------------
-- body_extraction/Serie_I_II/extract.py — coalesced ORG anchors (C6)
-- ---------------------------------------------------------------------------

/-- The gap regex `^[\s•\-–,.;:]*$` between consecutive coalescing spans. -/
def lightGap (g : PyStr) : Bool :=
  g.all (fun c =>
    isSpaceN c || c == 8226 || c == 45 || c == 8211 || c == 44 || c == 46 ||
      c == 59 || c == 58)

/-- The inner `for j in range(i, min(i + max_merge, len))` loop, past the
first span: extend while the gap matches, remember the last extension
length whose concatenated key is valid. -/
def extScan (docText : PyStr) (validKeys : List PyStr) :
    Nat → PyStr → Option Nat → Nat → List Ent → Option Nat
  | _, _, best, _, [] => best
  | endc, concatR, best, k, c :: cs =>
    if lightGap (sliceN docText endc c.startc) then
      let concat2 := concatR ++ 32 :: c.text
      let best2 := if validKeys.contains (orgKeyN concat2) then some k else best
      extScan docText validKeys c.endc concat2 best2 (k + 1) cs
    else best

/-- Best extension length for the head candidate (`best_j - i` in source);
`max_merge = 3` bounds the scan to the head plus two followers. -/
def extBest (docText : PyStr) (validKeys : List PyStr) (o : Ent) (rest : List Ent) :
    Option Nat :=
  let best0 := if validKeys.contains (orgKeyN o.text) then some 0 else none
  extScan docText validKeys o.endc o.text best0 1 (rest.take 2)

/-- The anchor emitted for a successful coalescing of `o` with `k`
followers: label of the head, text = raw body slice. -/
def coalescedAnchor (docText : PyStr) (o : Ent) (rest : List Ent) (k : Nat) : Ent :=
  let lastE := (o :: rest).getD k o
  ⟨o.label, sliceN docText o.startc lastE.endc, o.startc, lastE.endc⟩

/-- Fuel-indexed main loop of `_build_org_blocks_coalesced_to_json`. -/
def coalesceAux (docText : PyStr) (validKeys : List PyStr) :
    Nat → List Ent → List Ent
  | 0, _ => []
  | _ + 1, [] => []
  | fuel + 1, o :: rest =>
    match extBest docText validKeys o rest with
    | some k =>
      coalescedAnchor docText o rest k ::
        coalesceAux docText validKeys fuel (rest.drop k)
    | none =>
      if validKeys.contains (orgKeyN o.text) then
        o :: coalesceAux docText validKeys fuel rest
      else coalesceAux docText validKeys fuel rest

def coalesceAnchors (docText : PyStr) (validKeys : List PyStr) (orgs : List Ent) :
    List Ent :=
  coalesceAux docText validKeys orgs.length orgs

/-- Blocks from anchors: each block runs to the next anchor's start, the
last to the end of the text. -/
def mkBlocks : List Ent → Nat → List (Ent × Nat × Nat)
  | [], _ => []
  | [a], len => [(a, a.startc, len)]
  | a :: b :: rest, len => (a, a.startc, b.startc) :: mkBlocks (b :: rest) len

/-- `_build_org_blocks_coalesced_to_json` from `Serie_I_II/extract.py`. -/
def buildOrgBlocksCoalesced (docText : PyStr) (spans : List Ent)
    (validKeys : List PyStr) : List (Ent × Nat × Nat) :=
  let orgs := sortByStart (spans.filter (fun s => isOrgLike s.label))
  mkBlocks (coalesceAnchors docText validKeys orgs) docText.length

-- ---------------------------------------------------------------------------
-- body_extraction/Serie_I_II/extract.py — _slice_docs_in_block (C7)
-- ---------------------------------------------------------------------------

structure DocSliceII where
  docName : PyStr
  text : PyStr
deriving DecidableEq, Repr

inductive StatusII where
  | okII | partialII | docMissingII | orgMissingII
deriving DecidableEq, Repr

/-- `_spans_within` restricted to one label. -/
def spansWithin (spans : List Ent) (a b : Nat) (lab : Label) : List Ent :=
  spans.filter (fun s => a ≤ s.startc && s.startc < b && s.label == lab)

/-- `_slice_end`: next in-set document header start after `startC`, else
the block end.  `normDoc` abstracts `normalize_doc_title` (the claims
settled here do not depend on its internals). -/
def sliceEndAt (normDoc : PyStr → PyStr) (heads : List Ent) (jsonNames : List PyStr)
    (bend startC : Nat) : Nat :=
  match heads.find? (fun s => startC < s.startc && jsonNames.contains (normDoc s.text)) with
  | some s => s.startc
  | none => bend

/-- The main left-to-right pointer loop of `_slice_docs_in_block`,
reformulated on the not-yet-visited suffix of the header list. -/
def sliceLoop (normDoc : PyStr → PyStr) (docText : PyStr) (heads : List Ent)
    (jsonNames : List PyStr) (bend : Nat) :
    List (PyStr × PyStr) → List Ent → List DocSliceII × List PyStr
  | [], _ => ([], [])
  | (jraw, jnorm) :: jrest, remaining =>
    let skipped := remaining.dropWhile (fun h => !(normDoc h.text == jnorm))
    match skipped with
    | [] =>
      let r := sliceLoop normDoc docText heads jsonNames bend jrest []
      (r.1, jraw :: r.2)
    | h :: hrest =>
      let e := sliceEndAt normDoc heads jsonNames bend h.startc
      let r := sliceLoop normDoc docText heads jsonNames bend jrest hrest
      (⟨stripBoldN jraw, sliceN docText h.startc e⟩ :: r.1, r.2)

/-- `_slice_docs_in_block` from `Serie_I_II/extract.py`. -/
def sliceDocsInBlock (normDoc : PyStr → PyStr) (spans : List Ent) (docText : PyStr)
    (bstart bend : Nat) (jsonDocs : List PyStr) :
    List DocSliceII × List PyStr × StatusII × Nat :=
  let heads := sortByStart (spansWithin spans bstart bend .docNameL)
  if heads.isEmpty && jsonDocs.length == 1 then
    ([⟨stripBoldN (jsonDocs.getD 0 []), sliceN docText bstart bend⟩], [], .okII, 1)
  else
    let jsonNames := jsonDocs.map normDoc
    let pairs := jsonDocs.map (fun d => (d, normDoc d))
    let r0 := sliceLoop normDoc docText heads jsonNames bend pairs heads
    let r1 :=
      if r0.1.isEmpty && !heads.isEmpty then
        let matchingHeaders := heads.filter (fun h => jsonNames.contains (normDoc h.text))
        if !matchingHeaders.isEmpty then
          (matchingHeaders.map (fun h =>
              (⟨stripBoldN h.text,
                sliceN docText h.startc (sliceEndAt normDoc heads jsonNames bend h.startc)⟩ :
                DocSliceII)),
            let matchedNorms := matchingHeaders.map (fun h => normDoc h.text)
            jsonDocs.filter (fun d => !matchedNorms.contains (normDoc d)))
        else if jsonDocs.length == 1 then
          ([⟨stripBoldN (jsonDocs.getD 0 []), sliceN docText bstart bend⟩], [])
        else
          (heads.map (fun h =>
              (⟨stripBoldN h.text,
                sliceN docText h.startc (sliceEndAt normDoc heads jsonNames bend h.startc)⟩ :
                DocSliceII)),
            jsonDocs)
      else r0
    let status :=
      if jsonDocs.isEmpty then StatusII.okII
      else if !r1.1.isEmpty && !r1.2.isEmpty then StatusII.partialII
      else if r1.1.isEmpty && !jsonDocs.isEmpty then StatusII.docMissingII
      else StatusII.okII
    (r1.1, r1.2, status, r1.1.length)

/-- The per-organization result assembled by the flat mode of
`divide_body_by_org_and_docs` when the organization's block was located:
the block text is always the located slice, whatever the doc status. -/
structure OrgBlockResult where
  org : PyStr
  orgBlockText : PyStr
  docs : List DocSliceII
  status : StatusII
deriving DecidableEq, Repr

def orgEntryLocated (normDoc : PyStr → PyStr) (spans : List Ent) (docText : PyStr)
    (jsonOrgTextRaw : PyStr) (bstart bend : Nat) (jsonDocs : List PyStr) :
    OrgBlockResult :=
  let r := sliceDocsInBlock normDoc spans docText bstart bend jsonDocs
  ⟨stripBoldN jsonOrgTextRaw, sliceN docText bstart bend, r.1, r.2.2.1⟩

-- ---------------------------------------------------------------------------
-- body_extraction/Serie_IV/extract_IV.py
-- ---------------------------------------------------------------------------

/-- A spaCy token: its text and its trailing whitespace. -/
structure Token where
  text : PyStr
  ws : PyStr
deriving DecidableEq, Repr

/-- A token-indexed entity (Serie IV splitting works on token indices). -/
structure TokEnt where
  label : Label
  startTok : Nat
  endTok : Nat
deriving DecidableEq, Repr

structure DocIV where
  tokens : List Token
  ents : List TokEnt
deriving DecidableEq, Repr

/-- `doc.text`. -/
def docTextIV (d : DocIV) : PyStr := (d.tokens.map (fun t => t.text ++ t.ws)).flatten

/-- `doc[a:b].text`: token texts with internal whitespace, excluding the
trailing whitespace of the last token. -/
def renderToks : List Token → PyStr
  | [] => []
  | [t] => t.text
  | t :: ts => t.text ++ t.ws ++ renderToks ts

def renderSlice (d : DocIV) (a b : Nat) : PyStr :=
  renderToks ((d.tokens.drop a).take (b - a))

def hasLettersN (s : PyStr) : Bool := s.any isAlphaN

/-- Stable sort of token entities by `e.start`. -/
def insertByStartTok (e : TokEnt) : List TokEnt → List TokEnt
  | [] => [e]
  | f :: fs => if f.startTok < e.startTok then f :: insertByStartTok e fs else e :: f :: fs

def sortByStartTok (es : List TokEnt) : List TokEnt :=
  es.foldl (fun acc e => insertByStartTok e acc) []

/-- The output item: `{"org": None, "docs": [...]}` where every doc is
`{"title": None, "sub_org": None, "text": chunk}` — only the chunk texts
vary, so docs are modelled by their texts. -/
structure ItemIV where
  org : Option PyStr
  docs : List PyStr
deriving DecidableEq, Repr

/-- One iteration of the `for ent in assinaturas` loop: emit the chunk
from the previous boundary through this signature's end (kept only if it
has letters), and advance the boundary. -/
def stepIV (d : DocIV) (acc : List PyStr × Nat) (ent : TokEnt) : List PyStr × Nat :=
  let chunk := stripN (renderSlice d acc.2 ent.endTok)
  (if !chunk.isEmpty && hasLettersN chunk then acc.1 ++ [chunk] else acc.1,
    ent.endTok)

/-- The trailing-text handling after the loop. -/
def finishIV (d : DocIV) (r : List PyStr × Nat) : List PyStr :=
  let tailText := stripN (renderSlice d r.2 d.tokens.length)
  if !tailText.isEmpty && hasLettersN tailText then r.1 ++ [tailText] else r.1

/-- `split_doc_by_assinatura` from `Serie_IV/extract_IV.py`. -/
def splitDocByAssinatura (d : DocIV) : ItemIV :=
  let assinaturas := sortByStartTok (d.ents.filter (fun e => e.label == .assinaturaL))
  if assinaturas.isEmpty then
    let fullText := stripN (docTextIV d)
    ⟨none, if !fullText.isEmpty && hasLettersN fullText then [fullText] else []⟩
  else
    ⟨none, finishIV d (assinaturas.foldl (stepIV d) ([], 0))⟩

-- ---------------------------------------------------------------------------
-- body_extraction/Serie_III/segmenter.py — invalid-payload guard (C8)
-- ---------------------------------------------------------------------------

/-- A dynamically typed payload value, as received by
`divide_body_by_org_and_docs_serieIII`. -/
inductive PyVal where
  | dict (orgs : List (Int × PyStr)) (items : List PItem)
  | arr (n : Nat)
  | strv (s : PyStr)
  | numv (n : Int)
  | nonev
deriving DecidableEq, Repr

/-- The codepoints of `"invalid_payload"`. -/
def invalidPayloadStr : PyStr :=
  [105, 110, 118, 97, 108, 105, 100, 95, 112, 97, 121, 108, 111, 97, 100]

/-- The segmenter's return value: either the error triple
`([], [], {"error": "invalid_payload"})` or a normal run (whose content,
produced by the rest of the pipeline, is abstracted by the `core`
argument below — claim C8 concerns only the guard). -/
inductive SegReturn (ρ : Type) where
  | errTriple (r1 r2 : List Unit) (err : PyStr)
  | normal (r : ρ)
deriving DecidableEq

/-- `divide_body_by_org_and_docs_serieIII`, lines 28–29: the
`isinstance(payload, dict)` guard; the dict branch runs the pipeline. -/
def divideBodySerieIII {ρ : Type} (core : List (Int × PyStr) → List PItem → ρ)
    (payload : PyVal) : SegReturn ρ :=
  match payload with
  | .dict orgs items => .normal (core orgs items)
  | _ => .errTriple [] [] invalidPayloadStr

-- ---------------------------------------------------------------------------
-- Specification-side definitions (taken from the spec's words, for the
-- refinement claims; each is compared with the corresponding definition
-- translated from the source).
-- ---------------------------------------------------------------------------

/-- The fuzzy-matcher tier cascade exactly as claim C3 words it: exact
normalized (1.0), tight (0.95), letters-only exact (0.90), letters-only
containment with ratio ≥ 0.80 (0.8 × ratio); first success wins.  Inputs
are the two already-normalized titles. -/
def specTierClaimC3 (a b : PyStr) : Option Conf :=
  if canonNorm b == canonNorm a then some confOne
  else if canonTight b == canonTight a then some conf95
  else if canonLetters b == canonLetters a then some conf90
  else
    let la := canonLetters a
    let lb := canonLetters b
    if containsSeg la lb || containsSeg lb la then
      let shorter := min la.length lb.length
      let longer := max la.length lb.length
      let ratio : Conf := if longer = 0 then confZero else ⟨shorter, longer⟩
      if confLe conf80 ratio then some (confMul conf80 ratio) else none
    else none

/-- The amended cascade: as `specTierClaimC3`, but each tier additionally
requires the compared canonical form of the body title to be nonempty
(tiers 3 and 4 thereby require nonempty letters-only forms). -/
def specTierAmendedC3 (a b : PyStr) : Option Conf :=
  if canonNorm b == canonNorm a && !(canonNorm b).isEmpty then some confOne
  else if canonTight b == canonTight a && !(canonTight b).isEmpty then some conf95
  else if canonLetters b == canonLetters a && !(canonLetters b).isEmpty then some conf90
  else
    let la := canonLetters a
    let lb := canonLetters b
    if la.isEmpty || lb.isEmpty then none
    else if containsSeg la lb || containsSeg lb la then
      let shorter := min la.length lb.length
      let longer := max la.length lb.length
      let ratio : Conf := if longer = 0 then confZero else ⟨shorter, longer⟩
      if confLe conf80 ratio then some (confMul conf80 ratio) else none
    else none

/-- Claim C6, declaratively: all `k` gaps between the head and its next
`k` followers are empty or pure light punctuation/bullets. -/
def gapsOk (docText : PyStr) : Ent → List Ent → Nat → Bool
  | _, _, 0 => true
  | _, [], _ + 1 => false
  | o, c :: cs, k + 1 => lightGap (sliceN docText o.endc c.startc) && gapsOk docText c cs k

/-- The concatenation (texts joined by single spaces) of the head with its
next `k` followers. -/
def concatUpTo : Ent → List Ent → Nat → PyStr
  | o, _, 0 => o.text
  | o, [], _ + 1 => o.text
  | o, c :: cs, k + 1 => o.text ++ 32 :: concatUpTo c cs k

/-- A valid extension of the head by `k` followers: gaps admissible and
the concatenation's normalized key in the valid set. -/
def extOkSpec (docText : PyStr) (validKeys : List PyStr) (o : Ent) (rest : List Ent)
    (k : Nat) : Bool :=
  gapsOk docText o rest k && validKeys.contains (orgKeyN (concatUpTo o rest k))

/-- The longest valid extension among 0, 1 or 2 followers (the amended
claim: the source checks the head plus at most two following spans). -/
def specBestExt (docText : PyStr) (validKeys : List PyStr) (o : Ent)
    (rest : List Ent) : Option Nat :=
  if extOkSpec docText validKeys o rest 2 then some 2
  else if extOkSpec docText validKeys o rest 1 then some 1
  else if extOkSpec docText validKeys o rest 0 then some 0
  else none

/-- The amended claim's anchor-selection loop: keep the longest valid
extension, else keep the single span only if its own key is valid
(subsumed by a valid extension of length 0), else discard; consume the
merged spans. -/
def specCoalesceAux (docText : PyStr) (validKeys : List PyStr) :
    Nat → List Ent → List Ent
  | 0, _ => []
  | _ + 1, [] => []
  | fuel + 1, o :: rest =>
    match specBestExt docText validKeys o rest with
    | some k =>
      coalescedAnchor docText o rest k ::
        specCoalesceAux docText validKeys fuel (rest.drop k)
    | none => specCoalesceAux docText validKeys fuel rest

def specCoalesce (docText : PyStr) (validKeys : List PyStr) (orgs : List Ent) :
    List Ent :=
  specCoalesceAux docText validKeys orgs.length orgs

/-- Claim C9, declaratively: chunk boundaries run from the previous
boundary to each signature span's end, the last chunk to the end of the
document; with no signatures the whole document is one chunk. -/
def chunkBoundsIV (d : DocIV) : Nat → List TokEnt → List PyStr
  | start, [] => [renderSlice d start d.tokens.length]
  | start, e :: es => renderSlice d start e.endTok :: chunkBoundsIV d e.endTok es

/-- Claim C9's description of the splitter: split at every signature span
(each chunk ending at the signature's end), strip, and drop chunks with
no alphabetic character. -/
def specSplitIV (d : DocIV) : List PyStr :=
  ((chunkBoundsIV d 0
      (sortByStartTok (d.ents.filter (fun e => e.label == .assinaturaL)))).map
    stripN).filter hasLettersN

-- ---------------------------------------------------------------------------
-- Concrete inputs used by counterexamples and witnesses
-- ---------------------------------------------------------------------------

/-- `"Direcao Regional"`: an accepted organization anchor text. -/
def c1orgText : PyStr :=
  [68, 105, 114, 101, 99, 97, 111, 32, 82, 101, 103, 105, 111, 110, 97, 108]

/-- A body span stream with one accepted organization anchor at offset 5. -/
def c1ents : List Ent := [⟨.orgL, c1orgText, 5, 21⟩]

/-- `"***"` — a payload title whose letters-only form is empty. -/
def c3titleA : PyStr := [42, 42, 42]

/-- `"::"` — a body title whose letters-only form is empty. -/
def c3titleB : PyStr := [58, 58]

def c3item : PItem := ⟨some 1, [2], some c3titleA⟩

def c3ent : Ent := ⟨.docNameL, c3titleB, 0, 2⟩

/-- `"des"` — a payload/body title pair for the amended-cascade witness. -/
def c3wItem : PItem := ⟨some 1, [7], some [100, 101, 115]⟩

def c3wEnt : Ent := ⟨.docNameL, [100, 101, 115], 10, 13⟩

/-- `"a::"` — normalization counterexample. -/
def c5str : PyStr := [97, 58, 58]

/-- `"AA BB CC DD EE FF GG HH"`. -/
def c6text : PyStr :=
  [65, 65, 32, 66, 66, 32, 67, 67, 32, 68, 68, 32, 69, 69, 32, 70, 70, 32, 71,
    71, 32, 72, 72]

def c6spans : List Ent :=
  [⟨.orgL, [65, 65, 32, 66, 66], 0, 5⟩, ⟨.orgL, [67, 67, 32, 68, 68], 6, 11⟩,
    ⟨.orgL, [69, 69, 32, 70, 70], 12, 17⟩, ⟨.orgL, [71, 71, 32, 72, 72], 18, 23⟩]

/-- The normalized key of the four-span concatenation
`"AA BB CC DD EE FF GG HH"`. -/
def c6keys : List PyStr :=
  [[65, 65, 66, 66, 67, 67, 68, 68, 69, 69, 70, 70, 71, 71, 72, 72]]

def c6head : Ent := ⟨.orgL, [65, 65, 32, 66, 66], 0, 5⟩

def c6rest : List Ent :=
  [⟨.orgL, [67, 67, 32, 68, 68], 6, 11⟩, ⟨.orgL, [69, 69, 32, 70, 70], 12, 17⟩,
    ⟨.orgL, [71, 71, 32, 72, 72], 18, 23⟩]

/-- Scenario E document: tokens "Texto ass1 Mais ass2 123." with two
signature spans (token ranges [1,2) and [3,4)) and a letterless tail. -/
def c9doc : DocIV :=
  ⟨[⟨[84, 101, 120, 116, 111], [32]⟩, ⟨[97, 115, 115, 49], [32]⟩,
      ⟨[77, 97, 105, 115], [32]⟩, ⟨[97, 115, 115, 50], [32]⟩,
      ⟨[49, 50, 51, 46], []⟩],
    [⟨.assinaturaL, 1, 2⟩, ⟨.assinaturaL, 3, 4⟩]⟩

/-- `"0123456789"` — block text for the C7 witness. -/
def c7text : PyStr := [48, 49, 50, 51, 52, 53, 54, 55, 56, 57]

/-- `"DocA"`, `"DocB"`. -/
def c7docA : PyStr := [68, 111, 99, 65]
def c7docB : PyStr := [68, 111, 99, 66]

/-- C4 witness inputs: a Sumario heading at [0,7), an org-like span that
never repeats, and a span stream with no Sumario at all. -/
def c4sum : Ent := ⟨.sumarioL, [83], 0, 7⟩
def c4org : Ent := ⟨.orgL, [77, 77], 10, 12⟩
def c4entsA : List Ent := [⟨.orgL, [88, 88], 0, 2⟩]
def c4entsB : List Ent := [c4sum]
def c4entsC : List Ent := [c4sum, c4org]
def c4text : PyStr := List.replicate 20 97

/-- The at-most-one-claim invariant of the matching state: every recorded
match's span position is claimed, and distinct payload keys hold matches
at distinct span positions. -/
def MInv (st : MState) : Prop :=
  (∀ k m, mLookup st.1 k = some (some m) → (m.startc, m.endc) ∈ st.2) ∧
  (∀ k1 k2 m1 m2, k1 ≠ k2 → mLookup st.1 k1 = some (some m1) →
    mLookup st.1 k2 = some (some m2) →
    (m1.startc, m1.endc) ≠ (m2.startc, m2.endc))

/-- C2 witness inputs: two payload items titled `"Alpha"` and `"Beta"`,
and two matching body document-name spans. -/
def c2itemA : PItem := ⟨some 1, [1], some [65, 108, 112, 104, 97]⟩
def c2itemB : PItem := ⟨some 2, [1], some [66, 101, 116, 97]⟩
def c2entA : Ent := ⟨.docNameL, [65, 108, 112, 104, 97], 10, 15⟩
def c2entB : Ent := ⟨.docNameL, [66, 101, 116, 97], 20, 24⟩

/-- A word with no whitespace characters. -/
def AllNS (w : PyStr) : Prop := ∀ c ∈ w, isSpaceN c = false

/-- A well-formed word list: every word nonempty and whitespace-free
(what `str.split()` produces). -/
def WFWords (ws : List PyStr) : Prop := ∀ w ∈ ws, w ≠ [] ∧ AllNS w

-- ===========================================================================
-- Theorems
-- ===========================================================================

/-- C10: when the window list is exactly one window named `"(global)"`,
`_match_org_to_window` returns window index 0 with status `org_anchored`
for every organization name whatsoever; `org_unanchored` is unreachable
in this case. -/
theorem c10_global_window_always_anchors (orgName : PyStr) (w : Window)
    (h : w.name = globalName) :
    matchOrgToWindow orgName [w] = (some 0, WStatus.orgAnchored) := by
  simp [matchOrgToWindow, h]

/-- Witness for C10 at a name sharing no text with the body. -/
theorem c10_global_window_always_anchors_witness :
    (Window.mk globalName 0 7).name = globalName ∧
      matchOrgToWindow [90, 90, 90] [⟨globalName, 0, 7⟩] =
        (some 0, WStatus.orgAnchored) :=
  ⟨rfl, c10_global_window_always_anchors [90, 90, 90] ⟨globalName, 0, 7⟩ rfl⟩

/-- C8: a payload that is not a dict yields the single top-level
`invalid_payload` error marker with empty results, whatever the rest of
the pipeline (`core`) would compute — no partial processing happens and
no exception is raised (the function is total). -/
theorem c8_invalid_payload_guard {ρ : Type}
    (core : List (Int × PyStr) → List PItem → ρ) (p : PyVal)
    (h : ∀ orgs items, p ≠ PyVal.dict orgs items) :
    divideBodySerieIII core p = SegReturn.errTriple [] [] invalidPayloadStr := by
  cases p with
  | dict orgs items => exact absurd rfl (h orgs items)
  | arr n => rfl
  | strv s => rfl
  | numv n => rfl
  | nonev => rfl

/-- Witness for C8 at a string payload. -/
theorem c8_invalid_payload_guard_witness :
    (∀ orgs items, PyVal.strv [] ≠ PyVal.dict orgs items) ∧
      divideBodySerieIII (fun _ _ => (0 : Nat)) (PyVal.strv []) =
        SegReturn.errTriple [] [] invalidPayloadStr :=
  And.intro (fun _ _ h => nomatch h)
    (c8_invalid_payload_guard (fun _ _ => (0 : Nat)) (PyVal.strv [])
      (fun _ _ h => nomatch h))

/-- C1 counterexample: with one accepted organization anchor at offset 5
in a body of length 30, the computed windows are `[(5, 30)]`, whose union
does not include position 0 — so the union is not `[0, len(body))` as the
claim states. -/
theorem c1_counterexample :
    collectOrgWindows c1ents 30 [c1orgText] = [⟨c1orgText, 5, 30⟩] ∧
      ¬(∃ w ∈ collectOrgWindows c1ents 30 [c1orgText],
          w.startc ≤ 0 ∧ 0 < w.endc) := by
  constructor
  · decide
  · decide

/-- C3 counterexample: for the payload title `"***"` and the body title
`"::"` (both with nonempty normalized forms but empty letters-only
forms), the claim's cascade succeeds at the letters-only-exact tier with
confidence 0.90, but `_match_doc_type_headers` leaves the item unmatched:
the code's tier 3 additionally requires a nonempty letters-only form. -/
theorem c3_counterexample :
    specTierClaimC3 (normTitleN c3titleA) (normTitleN c3titleB) = some conf90 ∧
      mLookup (matchDocTypeHeaders [c3ent] [c3item] [⟨globalName, 0, 10⟩])
        (docTypeKey c3item) = some none := by
  constructor
  · decide
  · decide

/-- C5 counterexample: `_normalize_title` is not idempotent — on `"a::"`
it yields `"a:"`, and a second application yields `"a"` (one trailing
colon is dropped per application). -/
theorem c5_counterexample : normTitleN (normTitleN c5str) ≠ normTitleN c5str := by
  decide

-- ---------------------------------------------------------------------------
-- Character-level lemmas for the normalization kit
-- ---------------------------------------------------------------------------

theorem toUpperN_big {n : Nat} (h : 256 ≤ n) : toUpperN n = n := by
  unfold toUpperN
  rw [if_neg (by omega), if_neg (by omega)]

theorem toLowerN_big {n : Nat} (h : 256 ≤ n) : toLowerN n = n := by
  unfold toLowerN
  rw [if_neg (by omega), if_neg (by omega)]

/-- Case folding commutes with accent folding after `upper`. -/
theorem lowerFoldUpper (n : Nat) :
    toLowerN (foldAccentN (toUpperN n)) = toLowerN (foldAccentN n) := by
  rcases Nat.lt_or_ge n 256 with h | h
  · exact (by decide :
      ∀ m : Nat, m < 256 → toLowerN (foldAccentN (toUpperN m)) = toLowerN (foldAccentN m)) n h
  · rw [toUpperN_big h]

/-- Case folding commutes with accent folding after `lower`. -/
theorem lowerFoldLower (n : Nat) :
    toLowerN (foldAccentN (toLowerN n)) = toLowerN (foldAccentN n) := by
  rcases Nat.lt_or_ge n 256 with h | h
  · exact (by decide :
      ∀ m : Nat, m < 256 → toLowerN (foldAccentN (toLowerN m)) = toLowerN (foldAccentN m)) n h
  · rw [toLowerN_big h]

/-- `[a-z0-9]` codepoints are fixed by accent folding. -/
theorem foldAccentN_keep {c : Nat} (h : isLowerAlnumN c = true) : foldAccentN c = c := by
  simp only [isLowerAlnumN, Bool.or_eq_true, Bool.and_eq_true, decide_eq_true_eq] at h
  unfold foldAccentN
  iterate 12 rw [if_neg (by omega)]

/-- `[a-z0-9]` codepoints are fixed by case folding. -/
theorem toLowerN_keep {c : Nat} (h : isLowerAlnumN c = true) : toLowerN c = c := by
  simp only [isLowerAlnumN, Bool.or_eq_true, Bool.and_eq_true, decide_eq_true_eq] at h
  unfold toLowerN
  rw [if_neg (by omega), if_neg (by omega)]

-- ---------------------------------------------------------------------------
-- `_letters_only`: idempotence and case invariance
-- ---------------------------------------------------------------------------

theorem lettersOnly_mem {s : PyStr} {c : Nat} (h : c ∈ lettersOnlyN s) :
    isLowerAlnumN c = true := by
  unfold lettersOnlyN at h
  exact (List.mem_filter.mp h).2

theorem lettersOnly_fixed {l : PyStr} (h : ∀ c ∈ l, isLowerAlnumN c = true) :
    lettersOnlyN l = l := by
  induction l with
  | nil => rfl
  | cons c cs ih =>
    have hc : isLowerAlnumN c = true := h c (List.mem_cons_self c cs)
    have hcs := ih (fun x hx => h x (List.mem_cons_of_mem c hx))
    unfold lettersOnlyN at hcs ⊢
    rw [List.map_cons, List.map_cons, foldAccentN_keep hc, toLowerN_keep hc,
      List.filter_cons_of_pos hc, hcs]

theorem lettersOnly_idem (s : PyStr) : lettersOnlyN (lettersOnlyN s) = lettersOnlyN s :=
  lettersOnly_fixed (fun _ hc => lettersOnly_mem hc)

theorem map_lowerFold_upper (s : PyStr) :
    ((s.map toUpperN).map foldAccentN).map toLowerN = (s.map foldAccentN).map toLowerN := by
  induction s with
  | nil => rfl
  | cons c cs ih => simp only [List.map_cons, ih, lowerFoldUpper]

theorem map_lowerFold_lower (s : PyStr) :
    ((s.map toLowerN).map foldAccentN).map toLowerN = (s.map foldAccentN).map toLowerN := by
  induction s with
  | nil => rfl
  | cons c cs ih => simp only [List.map_cons, ih, lowerFoldLower]

theorem lettersOnly_upper (s : PyStr) :
    lettersOnlyN (s.map toUpperN) = lettersOnlyN s := by
  unfold lettersOnlyN
  rw [map_lowerFold_upper]

theorem lettersOnly_lower (s : PyStr) :
    lettersOnlyN (s.map toLowerN) = lettersOnlyN s := by
  unfold lettersOnlyN
  rw [map_lowerFold_lower]

-- ---------------------------------------------------------------------------
-- `str.split()` / `" ".join` round-trip and strip lemmas
-- ---------------------------------------------------------------------------

theorem groupsN_ne_nil (s : PyStr) : groupsN s ≠ [] := by
  induction s with
  | nil => simp [groupsN]
  | cons c cs ih =>
    cases h : groupsN cs with
    | nil => exact absurd h ih
    | cons g gs => cases hc : isSpaceN c <;> simp [groupsN, h, hc]

theorem groupsN_chars {s : PyStr} {g : PyStr} {c : Nat}
    (hg : g ∈ groupsN s) (hc : c ∈ g) : isSpaceN c = false := by
  induction s generalizing g with
  | nil =>
    simp only [groupsN, List.mem_singleton] at hg
    subst hg
    exact absurd hc (List.not_mem_nil c)
  | cons a cs ih =>
    cases h : groupsN cs with
    | nil => exact absurd h (groupsN_ne_nil cs)
    | cons g' gs =>
      cases ha : isSpaceN a with
      | true =>
        simp only [groupsN, h, ha, List.mem_cons] at hg
        rcases hg with hg | hg | hg
        · subst hg; exact absurd hc (List.not_mem_nil c)
        · exact ih (g := g) (by rw [h]; exact hg ▸ List.mem_cons_self g' gs) hc
        · exact ih (g := g) (by rw [h]; exact List.mem_cons_of_mem g' hg) hc
      | false =>
        simp only [groupsN, h, ha, List.mem_cons] at hg
        rcases hg with hg | hg
        · subst hg
          rcases List.mem_cons.mp hc with hc' | hc'
          · subst hc'; exact ha
          · exact ih (g := g') (by rw [h]; exact List.mem_cons_self g' gs) hc'
        · exact ih (g := g) (by rw [h]; exact List.mem_cons_of_mem g' hg) hc

theorem words_wf (s : PyStr) : WFWords (wordsN s) := by
  intro w hw
  unfold wordsN at hw
  have := List.mem_filter.mp hw
  refine ⟨by simpa using this.2, fun c hc => groupsN_chars this.1 hc⟩

theorem groupsN_allNS {w : PyStr} (h : AllNS w) : groupsN w = [w] := by
  induction w with
  | nil => rfl
  | cons c cs ih =>
    have hc : isSpaceN c = false := h c (List.mem_cons_self c cs)
    have hcs := ih (fun x hx => h x (List.mem_cons_of_mem c hx))
    simp [groupsN, hcs, hc]

theorem groupsN_append_space {w : PyStr} (h : AllNS w) (rest : PyStr) :
    groupsN (w ++ 32 :: rest) = w :: groupsN rest := by
  induction w with
  | nil =>
    cases hr : groupsN rest with
    | nil => exact absurd hr (groupsN_ne_nil rest)
    | cons g gs => simp [groupsN, hr, isSpaceN]
  | cons c cs ih =>
    have hc : isSpaceN c = false := h c (List.mem_cons_self c cs)
    have hcs := ih (fun x hx => h x (List.mem_cons_of_mem c hx))
    simp [groupsN, hcs, hc]

theorem wordsN_joinSpace {ws : List PyStr} (h : WFWords ws) :
    wordsN (joinSpaceN ws) = ws := by
  induction ws with
  | nil => rfl
  | cons w rest ih =>
    have hw := h w (List.mem_cons_self w rest)
    cases rest with
    | nil =>
      show wordsN w = [w]
      unfold wordsN
      rw [groupsN_allNS hw.2]
      simp [hw.1]
    | cons w2 rest' =>
      have hrest : WFWords (w2 :: rest') := fun x hx => h x (List.mem_cons_of_mem w hx)
      show wordsN (w ++ 32 :: joinSpaceN (w2 :: rest')) = w :: w2 :: rest'
      unfold wordsN
      rw [groupsN_append_space hw.2]
      simp only [List.filter_cons]
      rw [if_pos (by simpa using hw.1)]
      have := ih hrest
      unfold wordsN at this
      rw [this]

theorem dropWhile_append_all {p : Nat → Bool} {a : PyStr} (h : ∀ c ∈ a, p c = true)
    (b : PyStr) : List.dropWhile p (a ++ b) = List.dropWhile p b := by
  induction a with
  | nil => rfl
  | cons c cs ih =>
    have hc := h c (List.mem_cons_self c cs)
    rw [List.cons_append, List.dropWhile_cons_of_pos hc]
    exact ih (fun x hx => h x (List.mem_cons_of_mem c hx))

theorem stripRight_append_space {x w : PyStr} (h : ∀ c ∈ w, isSpaceN c = true) :
    stripRightN (x ++ w) = stripRightN x := by
  unfold stripRightN
  rw [List.reverse_append, dropWhile_append_all (fun c hc => h c (List.mem_reverse.mp hc))]

theorem stripRight_concat_nonspace {y : PyStr} {c : Nat} (hc : isSpaceN c = false) :
    stripRightN (y ++ [c]) = y ++ [c] := by
  unfold stripRightN
  rw [List.reverse_append]
  simp only [List.reverse_cons, List.reverse_nil, List.nil_append, List.cons_append,
    List.nil_append]
  rw [List.dropWhile_cons_of_neg (by simp [hc])]
  simp

theorem stripLeft_cons_nonspace {s : PyStr} {c : Nat} (hc : isSpaceN c = false) :
    stripLeftN (c :: s) = c :: s := by
  unfold stripLeftN
  rw [List.dropWhile_cons_of_neg (by simp [hc])]

theorem joinSpace_concat (init : List PyStr) (w : PyStr) :
    joinSpaceN (init ++ [w]) = if init.isEmpty then w else joinSpaceN init ++ 32 :: w := by
  induction init with
  | nil => rfl
  | cons a init' ih =>
    cases init' with
    | nil => rfl
    | cons b init'' =>
      show a ++ 32 :: joinSpaceN ((b :: init'') ++ [w]) = _
      rw [ih]
      simp [joinSpaceN, List.append_assoc]

theorem join_last_nonspace {ws : List PyStr} (h : WFWords ws) (hne : ws ≠ []) :
    ∃ t c, joinSpaceN ws = t ++ [c] ∧ isSpaceN c = false := by
  induction ws with
  | nil => exact absurd rfl hne
  | cons w rest ih =>
    have hw := h w (List.mem_cons_self w rest)
    cases rest with
    | nil =>
      rcases List.eq_nil_or_concat w with hw0 | ⟨t, c, htc⟩
      · exact absurd hw0 hw.1
      · rw [List.concat_eq_append] at htc
        exact ⟨t, c, by simp [joinSpaceN, htc],
          hw.2 c (by rw [htc]; exact List.mem_append_right t (List.mem_singleton.mpr rfl))⟩
    | cons w2 rest' =>
      have hrest : WFWords (w2 :: rest') := fun x hx => h x (List.mem_cons_of_mem w hx)
      rcases ih hrest (by simp) with ⟨t, c, htc, hc⟩
      exact ⟨w ++ 32 :: t, c, by simp [joinSpaceN, htc], hc⟩

theorem stripRight_join {ws : List PyStr} (h : WFWords ws) :
    stripRightN (joinSpaceN ws) = joinSpaceN ws := by
  cases hne : ws with
  | nil => rfl
  | cons w rest =>
    rcases join_last_nonspace (hne ▸ h) (by simp) with ⟨t, c, htc, hc⟩
    rw [← hne] at htc ⊢
    rw [htc, stripRight_concat_nonspace hc]

theorem strip_join {ws : List PyStr} (h : WFWords ws) :
    stripN (joinSpaceN ws) = joinSpaceN ws := by
  cases hne : ws with
  | nil => rfl
  | cons w rest =>
    have hw := h w (by rw [hne]; exact List.mem_cons_self w rest)
    unfold stripN
    subst hne
    rcases List.exists_cons_of_ne_nil hw.1 with ⟨c, w', hcw⟩
    have hc : isSpaceN c = false :=
      hw.2 c (by rw [hcw]; exact List.mem_cons_self c w')
    have hstep : stripLeftN (joinSpaceN (w :: rest)) = joinSpaceN (w :: rest) := by
      cases rest with
      | nil =>
        show stripLeftN w = w
        rw [hcw, stripLeft_cons_nonspace hc]
      | cons w2 rest' =>
        have hshape : joinSpaceN (w :: w2 :: rest') =
            c :: (w' ++ 32 :: joinSpaceN (w2 :: rest')) := by
          rw [hcw]; simp [joinSpaceN]
        rw [hshape, stripLeft_cons_nonspace hc, ← hshape]
    rw [hstep, stripRight_join h]

/-- Dropping the final character of a canonical (joined well-formed) string
and right-stripping again yields a canonical string. -/
theorem colonDrop_canonical {ws : List PyStr} (h : WFWords ws) :
    ∃ ws', WFWords ws' ∧
      stripRightN (joinSpaceN ws).dropLast = joinSpaceN ws' := by
  rcases List.eq_nil_or_concat ws with hnil | ⟨init, w, hiw⟩
  · exact ⟨[], by intro w hw; exact absurd hw (List.not_mem_nil w),
      by simp [hnil, joinSpaceN, stripRightN]⟩
  · rw [List.concat_eq_append] at hiw
    subst hiw
    have hw := h w (List.mem_append_right init (List.mem_singleton.mpr rfl))
    rcases List.eq_nil_or_concat w with hw0 | ⟨w'', lc, hwc⟩
    · exact absurd hw0 hw.1
    · rw [List.concat_eq_append] at hwc
      subst hwc
      have hinitwf : WFWords init := fun x hx => h x (List.mem_append_left [w'' ++ [lc]] hx)
      have hwns : AllNS w'' := fun x hx =>
        hw.2 x (List.mem_append_left [lc] hx)
      cases hinit : init with
      | nil =>
        rw [joinSpace_concat]
        simp only [hinit, List.isEmpty_nil, if_true]
        rw [List.dropLast_concat]
        rcases List.eq_nil_or_concat w'' with hw2 | ⟨v, d, hvd⟩
        · exact ⟨[], by intro x hx; exact absurd hx (List.not_mem_nil x),
            by simp [hw2, joinSpaceN, stripRightN]⟩
        · rw [List.concat_eq_append] at hvd
          have hd : isSpaceN d = false :=
            hwns d (by rw [hvd]; exact List.mem_append_right v (List.mem_singleton.mpr rfl))
          refine ⟨[w''], ?_, ?_⟩
          · intro x hx
            rw [List.mem_singleton] at hx
            subst hx
            exact ⟨by simp [hvd], hwns⟩
          · rw [hvd, stripRight_concat_nonspace hd]
            simp [joinSpaceN]
      | cons i0 irest =>
        rw [← hinit]
        rw [joinSpace_concat]
        rw [if_neg (by simp [hinit])]
        have hassoc : joinSpaceN init ++ 32 :: (w'' ++ [lc]) =
            (joinSpaceN init ++ 32 :: w'') ++ [lc] := by simp
        rw [hassoc, List.dropLast_concat]
        rcases List.eq_nil_or_concat w'' with hw2 | ⟨v, d, hvd⟩
        · subst hw2
          refine ⟨init, hinitwf, ?_⟩
          have : joinSpaceN init ++ 32 :: ([] : PyStr) = joinSpaceN init ++ [32] := rfl
          rw [this, stripRight_append_space (by intro c hc; simp at hc; simp [hc, isSpaceN])]
          exact stripRight_join hinitwf
        · rw [List.concat_eq_append] at hvd
          refine ⟨init ++ [w''], ?_, ?_⟩
          · intro x hx
            rcases List.mem_append.mp hx with hx | hx
            · exact hinitwf x hx
            · rw [List.mem_singleton] at hx
              subst hx
              exact ⟨by simp [hvd], hwns⟩
          · have hd : isSpaceN d = false :=
              hwns d (by rw [hvd]; exact List.mem_append_right v (List.mem_singleton_self d))
            have : joinSpaceN init ++ 32 :: w'' = (joinSpaceN init ++ 32 :: v) ++ [d] := by
              simp [hvd]
            rw [this, stripRight_concat_nonspace hd, joinSpace_concat,
              if_neg (by simp [hinit])]
            simp [hvd]

/-- The final colon-handling step of `_normalize_title` always yields a
canonical joined word list. -/
theorem canonical_tail (x : PyStr) :
    ∃ ws, WFWords ws ∧
      (if (joinSpaceN (wordsN x)).getLast? == some 58 then
        stripRightN (joinSpaceN (wordsN x)).dropLast
      else joinSpaceN (wordsN x)) = joinSpaceN ws := by
  by_cases hcolon : (joinSpaceN (wordsN x)).getLast? == some 58
  · simp only [hcolon, if_true]
    exact colonDrop_canonical (words_wf x)
  · simp only [Bool.not_eq_true] at hcolon
    simp only [hcolon, Bool.false_eq_true, if_false]
    exact ⟨wordsN x, words_wf x, rfl⟩

/-- Every `_normalize_title` output is a canonical joined word list. -/
theorem normTitle_canonical (s : PyStr) :
    ∃ ws, WFWords ws ∧ normTitleN s = joinSpaceN ws := by
  simp only [normTitleN]
  exact canonical_tail _

/-- Fixed-point computation of `_normalize_title` on a canonical string
that neither ends in a colon nor is bold-wrapped. -/
theorem normTitle_fixed {t : PyStr} (hc : stripN t = t)
    (hw : joinSpaceN (wordsN t) = t)
    (h2 : (startsBB t && endsBB t && decide (4 ≤ t.length)) = false)
    (h1 : t.getLast? ≠ some 58) :
    normTitleN t = t := by
  have hb : (t.getLast? == some 58) = false := by
    cases hg : t.getLast? == some 58
    · rfl
    · exact absurd (by simpa using hg) h1
  simp only [normTitleN, hc, h2, Bool.false_eq_true, if_false, hw, hb]

/-- C5 (amended): `_normalize_title` is idempotent on every string whose
normalized form neither still ends in a colon nor is still bold-wrapped
(the two shapes on which a second application strips one more layer);
`_letters_only` is idempotent and invariant under case. -/
theorem c5_normalization_idempotence :
    (∀ s : PyStr, (normTitleN s).getLast? ≠ some 58 →
        (startsBB (normTitleN s) && endsBB (normTitleN s) &&
          decide (4 ≤ (normTitleN s).length)) = false →
        normTitleN (normTitleN s) = normTitleN s) ∧
    (∀ s : PyStr, lettersOnlyN (lettersOnlyN s) = lettersOnlyN s) ∧
    (∀ s : PyStr,
        lettersOnlyN (s.map toUpperN) = lettersOnlyN s ∧
        lettersOnlyN (s.map toLowerN) = lettersOnlyN s) := by
  refine ⟨?_, lettersOnly_idem, fun s => ⟨lettersOnly_upper s, lettersOnly_lower s⟩⟩
  intro s h1 h2
  rcases normTitle_canonical s with ⟨ws, hwf, ht⟩
  have hc : stripN (normTitleN s) = normTitleN s := by
    rw [ht]; exact strip_join hwf
  have hw : joinSpaceN (wordsN (normTitleN s)) = normTitleN s := by
    rw [ht, wordsN_joinSpace hwf]
  exact normTitle_fixed hc hw h2 h1

/-- Witness for C5 at the string `"Foo"` (codepoints 70 111 111). -/
theorem c5_normalization_idempotence_witness :
    (normTitleN [70, 111, 111]).getLast? ≠ some 58 ∧
      (startsBB (normTitleN [70, 111, 111]) && endsBB (normTitleN [70, 111, 111]) &&
        decide (4 ≤ (normTitleN [70, 111, 111]).length)) = false ∧
      normTitleN (normTitleN [70, 111, 111]) = normTitleN [70, 111, 111] ∧
      lettersOnlyN (lettersOnlyN [70, 111, 111]) = lettersOnlyN [70, 111, 111] ∧
      lettersOnlyN (List.map toUpperN [70, 111, 111]) = lettersOnlyN [70, 111, 111] :=
  ⟨by decide, by decide,
    c5_normalization_idempotence.1 [70, 111, 111] (by decide) (by decide),
    c5_normalization_idempotence.2.1 [70, 111, 111],
    (c5_normalization_idempotence.2.2 [70, 111, 111]).1⟩

-- ---------------------------------------------------------------------------
-- Sortedness of `sortByStart`
-- ---------------------------------------------------------------------------

theorem mem_insertByStart {x e : Ent} :
    ∀ {l : List Ent}, x ∈ insertByStart e l ↔ x = e ∨ x ∈ l := by
  intro l
  induction l with
  | nil => simp [insertByStart]
  | cons f fs ih =>
    unfold insertByStart
    by_cases h : f.startc < e.startc
    · rw [if_pos h]
      simp only [List.mem_cons, ih]
      tauto
    · rw [if_neg h]
      simp only [List.mem_cons]

theorem sorted_insertByStart {e : Ent} {l : List Ent}
    (hl : List.Sorted (fun a b : Ent => a.startc ≤ b.startc) l) :
    List.Sorted (fun a b : Ent => a.startc ≤ b.startc) (insertByStart e l) := by
  induction l with
  | nil => simp [insertByStart]
  | cons f fs ih =>
    rw [List.sorted_cons] at hl
    unfold insertByStart
    by_cases h : f.startc < e.startc
    · rw [if_pos h, List.sorted_cons]
      refine ⟨fun b hb => ?_, ih hl.2⟩
      rcases mem_insertByStart.mp hb with rfl | hb
      · omega
      · exact hl.1 b hb
    · rw [if_neg h, List.sorted_cons]
      refine ⟨fun b hb => ?_, List.sorted_cons.mpr hl⟩
      rcases List.mem_cons.mp hb with rfl | hb
      · omega
      · exact Nat.le_trans (by omega) (hl.1 b hb)

theorem sortByStart_foldl_sorted :
    ∀ (es : List Ent) (acc : List Ent),
      List.Sorted (fun a b : Ent => a.startc ≤ b.startc) acc →
      List.Sorted (fun a b : Ent => a.startc ≤ b.startc)
        (es.foldl (fun acc e => insertByStart e acc) acc) := by
  intro es
  induction es with
  | nil => exact fun acc h => h
  | cons e es ih => exact fun acc h => ih _ (sorted_insertByStart h)

theorem sortByStart_sorted (es : List Ent) :
    List.Sorted (fun a b : Ent => a.startc ≤ b.startc) (sortByStart es) :=
  sortByStart_foldl_sorted es [] (List.sorted_nil)

theorem mem_sortByStart_foldl {x : Ent} :
    ∀ (es : List Ent) (acc : List Ent),
      x ∈ es.foldl (fun acc e => insertByStart e acc) acc ↔ x ∈ acc ∨ x ∈ es := by
  intro es
  induction es with
  | nil => simp
  | cons e es ih =>
    intro acc
    show x ∈ es.foldl _ (insertByStart e acc) ↔ _
    rw [ih]
    simp only [mem_insertByStart, List.mem_cons]
    tauto

theorem mem_sortByStart {x : Ent} {es : List Ent} :
    x ∈ sortByStart es ↔ x ∈ es := by
  unfold sortByStart
  rw [mem_sortByStart_foldl]
  simp

-- ---------------------------------------------------------------------------
-- `mkWindows`: contiguity, ordering, disjointness and coverage
-- ---------------------------------------------------------------------------

theorem mkWindows_head (a : Ent) (rest : List Ent) (len : Nat) :
    ∃ w, (mkWindows (a :: rest) len).head? = some w ∧
      w.startc = a.startc ∧ w.name = a.text := by
  cases rest <;> exact ⟨_, rfl, rfl, rfl⟩

theorem mkWindows_starts {len : Nat} :
    ∀ {anchors : List Ent} {w : Window}, w ∈ mkWindows anchors len →
      ∃ a ∈ anchors, w.startc = a.startc := by
  intro anchors
  induction anchors with
  | nil => intro w hw; exact absurd hw (List.not_mem_nil w)
  | cons a rest ih =>
    intro w hw
    cases rest with
    | nil =>
      simp only [mkWindows, List.mem_singleton] at hw
      exact ⟨a, List.mem_cons_self a [], by rw [hw]⟩
    | cons b rest' =>
      simp only [mkWindows, List.mem_cons] at hw
      rcases hw with hw | hw
      · exact ⟨a, List.mem_cons_self a _, by rw [hw]⟩
      · rcases ih hw with ⟨a', ha', hs⟩
        exact ⟨a', List.mem_cons_of_mem a ha', hs⟩

theorem mkWindows_chain (anchors : List Ent) (len : Nat) :
    List.Chain' (fun w1 w2 => w1.endc = w2.startc) (mkWindows anchors len) := by
  induction anchors with
  | nil => simp [mkWindows]
  | cons a rest ih =>
    cases rest with
    | nil => simp [mkWindows]
    | cons b rest' =>
      rw [mkWindows, List.chain'_cons']
      refine ⟨fun w hw => ?_, ih⟩
      rcases mkWindows_head b rest' len with ⟨w', hw', hs, _⟩
      rw [hw'] at hw
      simp only [Option.mem_def, Option.some_inj] at hw
      subst hw
      exact hs.symm

theorem mkWindows_last {len : Nat} :
    ∀ {anchors : List Ent}, anchors ≠ [] →
      ∀ w, (mkWindows anchors len).getLast? = some w → w.endc = len := by
  intro anchors
  induction anchors with
  | nil => intro h; exact absurd rfl h
  | cons a rest ih =>
    intro _ w hw
    cases rest with
    | nil =>
      simp only [mkWindows, List.getLast?_singleton, Option.some_inj] at hw
      rw [← hw]
    | cons b rest' =>
      rw [mkWindows] at hw
      have h2 : (mkWindows (b :: rest') len).getLast? = some w := by
        cases rest' with
        | nil => simpa [mkWindows, List.getLast?_cons_cons] using hw
        | cons c rest'' => simpa [mkWindows, List.getLast?_cons_cons] using hw
      exact ih (by simp) w h2

theorem mkWindows_start_lb {len : Nat} {b : Ent} {rest : List Ent}
    (hsorted : List.Sorted (fun a b : Ent => a.startc ≤ b.startc) (b :: rest)) :
    ∀ w ∈ mkWindows (b :: rest) len, b.startc ≤ w.startc := by
  intro w hw
  rcases mkWindows_starts hw with ⟨a, ha, hs⟩
  rcases List.mem_cons.mp ha with rfl | ha
  · omega
  · have := (List.sorted_cons.mp hsorted).1 a ha
    omega

theorem mkWindows_pairwise {len : Nat} :
    ∀ {anchors : List Ent},
      List.Sorted (fun a b : Ent => a.startc ≤ b.startc) anchors →
      List.Pairwise (fun w1 w2 => w1.endc ≤ w2.startc) (mkWindows anchors len) := by
  intro anchors
  induction anchors with
  | nil => simp [mkWindows]
  | cons a rest ih =>
    intro hsorted
    cases rest with
    | nil => simp [mkWindows]
    | cons b rest' =>
      have htail := (List.sorted_cons.mp hsorted).2
      rw [mkWindows, List.pairwise_cons]
      exact ⟨fun w hw => mkWindows_start_lb htail w hw, ih htail⟩

theorem mkWindows_cover {len : Nat} :
    ∀ {a : Ent} {rest : List Ent},
      List.Sorted (fun x y : Ent => x.startc ≤ y.startc) (a :: rest) →
      (∀ e ∈ a :: rest, e.startc ≤ len) →
      ∀ x, (∃ w ∈ mkWindows (a :: rest) len, w.startc ≤ x ∧ x < w.endc) ↔
        (a.startc ≤ x ∧ x < len) := by
  intro a rest
  induction rest generalizing a with
  | nil =>
    intro _ _ x
    simp [mkWindows]
  | cons b rest' ih =>
    intro hsorted hbound x
    have hab : a.startc ≤ b.startc :=
      (List.sorted_cons.mp hsorted).1 b (List.mem_cons_self b rest')
    have hbl : b.startc ≤ len := hbound b (List.mem_cons_of_mem a (List.mem_cons_self b rest'))
    have htail := (List.sorted_cons.mp hsorted).2
    have hbound' : ∀ e ∈ b :: rest', e.startc ≤ len :=
      fun e he => hbound e (List.mem_cons_of_mem a he)
    rw [mkWindows]
    constructor
    · rintro ⟨w, hw, hx1, hx2⟩
      rcases List.mem_cons.mp hw with rfl | hw
      · simp only at hx1 hx2
        omega
      · have := (ih htail hbound' x).mp ⟨w, hw, hx1, hx2⟩
        omega
    · rintro ⟨hx1, hx2⟩
      by_cases hxb : x < b.startc
      · exact ⟨⟨a.text, a.startc, b.startc⟩, List.mem_cons_self _ _, hx1, hxb⟩
      · rcases (ih htail hbound' x).mpr ⟨by omega, hx2⟩ with ⟨w, hw, h1, h2⟩
        exact ⟨w, List.mem_cons_of_mem _ hw, h1, h2⟩

/-- C1 (amended): for every body span stream (with spans inside the body)
the computed org windows are nonempty, contiguous (each window ends where
the next starts), non-overlapping and ordered, the last window ends at
`len(body)`, and their union is exactly `[first accepted anchor's start,
len(body))` — i.e. `[0, len(body))` exactly when the first accepted
anchor starts at 0; when no organization anchors are accepted the result
is the single window `("(global)", 0, len(body))`. -/
theorem c1_window_tiling (ents : List Ent) (bodyLen : Nat) (allowedOrgs : List PyStr)
    (hlen : ∀ e ∈ ents, e.startc ≤ bodyLen) :
    collectOrgWindows ents bodyLen allowedOrgs ≠ [] ∧
      List.Chain' (fun w1 w2 => w1.endc = w2.startc)
        (collectOrgWindows ents bodyLen allowedOrgs) ∧
      List.Pairwise (fun w1 w2 => w1.endc ≤ w2.startc)
        (collectOrgWindows ents bodyLen allowedOrgs) ∧
      (∀ w, (collectOrgWindows ents bodyLen allowedOrgs).getLast? = some w →
        w.endc = bodyLen) ∧
      (∀ x, (∃ w ∈ collectOrgWindows ents bodyLen allowedOrgs,
          w.startc ≤ x ∧ x < w.endc) ↔
        (∃ w0, (collectOrgWindows ents bodyLen allowedOrgs).head? = some w0 ∧
          w0.startc ≤ x ∧ x < bodyLen)) ∧
      (((sortByStart (ents.filter (fun e => isOrgLike e.label))).filter
          (owAccept
            (((allowedOrgs.map owNorm).filter (fun o => !o.isEmpty)).map
              owTight))).isEmpty = true →
        collectOrgWindows ents bodyLen allowedOrgs = [⟨globalName, 0, bodyLen⟩]) := by
  have hunfold : collectOrgWindows ents bodyLen allowedOrgs =
      (if ((sortByStart (ents.filter (fun e => isOrgLike e.label))).filter
            (owAccept
              (((allowedOrgs.map owNorm).filter (fun o => !o.isEmpty)).map
                owTight))).isEmpty then
        [⟨globalName, 0, bodyLen⟩]
      else
        mkWindows
          (sortByStart
            ((sortByStart (ents.filter (fun e => isOrgLike e.label))).filter
              (owAccept
                (((allowedOrgs.map owNorm).filter (fun o => !o.isEmpty)).map
                  owTight))))
          bodyLen) := rfl
  set kept := (sortByStart (ents.filter (fun e => isOrgLike e.label))).filter
    (owAccept
      (((allowedOrgs.map owNorm).filter (fun o => !o.isEmpty)).map owTight)) with hkept
  by_cases hk : kept.isEmpty
  · rw [hunfold, if_pos hk]
    refine ⟨by simp, by simp, by simp, ?_, ?_, fun _ => rfl⟩
    · intro w hw
      simp only [List.getLast?_singleton, Option.some_inj] at hw
      rw [← hw]
    · intro x
      simp
  · rw [hunfold, if_neg hk]
    have hkne : kept ≠ [] := by
      intro h0
      rw [h0] at hk
      exact hk rfl
    have hanne : sortByStart kept ≠ [] := by
      rcases List.exists_mem_of_ne_nil kept hkne with ⟨e, he⟩
      intro h0
      have : e ∈ sortByStart kept := mem_sortByStart.mpr he
      rw [h0] at this
      exact absurd this (List.not_mem_nil e)
    have hsorted := sortByStart_sorted kept
    have hbound : ∀ e ∈ sortByStart kept, e.startc ≤ bodyLen := by
      intro e he
      have h1 : e ∈ kept := mem_sortByStart.mp he
      have h2 := List.mem_filter.mp h1
      have h3 : e ∈ ents.filter (fun e => isOrgLike e.label) :=
        mem_sortByStart.mp h2.1
      exact hlen e (List.mem_filter.mp h3).1
    rcases List.exists_cons_of_ne_nil hanne with ⟨a, rest, har⟩
    rw [har] at hsorted hbound ⊢
    have hwne : mkWindows (a :: rest) bodyLen ≠ [] := by
      cases rest <;> simp [mkWindows]
    refine ⟨hwne, mkWindows_chain _ _, mkWindows_pairwise hsorted,
      mkWindows_last (by simp), ?_, ?_⟩
    · intro x
      rw [mkWindows_cover hsorted hbound x]
      rcases mkWindows_head a rest bodyLen with ⟨w0, hw0, hs0, _⟩
      rw [hw0]
      constructor
      · rintro ⟨h1, h2⟩
        exact ⟨w0, rfl, by omega, h2⟩
      · rintro ⟨w1, hw1, h1, h2⟩
        simp only [Option.some_inj] at hw1
        subst hw1
        exact ⟨by omega, h2⟩
    · intro h
      exact absurd h hk

/-- Witness for C1 at the counterexample's single-anchor body. -/
theorem c1_window_tiling_witness :
    (∀ e ∈ c1ents, e.startc ≤ 30) ∧
      collectOrgWindows c1ents 30 [c1orgText] ≠ [] ∧
      (∀ w, (collectOrgWindows c1ents 30 [c1orgText]).getLast? = some w →
        w.endc = 30) :=
  ⟨by decide, (c1_window_tiling c1ents 30 [c1orgText] (by decide)).1,
    (c1_window_tiling c1ents 30 [c1orgText] (by decide)).2.2.2.1⟩

-- ---------------------------------------------------------------------------
-- C6: the coalescing loop computes the declarative longest valid extension
-- ---------------------------------------------------------------------------

/-- The inner extension loop equals the declarative "longest valid
extension among 0, 1 or 2 followers". -/
theorem extBest_eq_specBestExt (docText : PyStr) (validKeys : List PyStr) (o : Ent)
    (rest : List Ent) :
    extBest docText validKeys o rest = specBestExt docText validKeys o rest := by
  cases rest with
  | nil =>
    cases h0 : validKeys.contains (orgKeyN o.text) <;>
      simp [extBest, extScan, specBestExt, extOkSpec, gapsOk, concatUpTo, h0]
  | cons c1 rest1 =>
    cases rest1 with
    | nil =>
      cases hg1 : lightGap (sliceN docText o.endc c1.startc)
      · cases h0 : validKeys.contains (orgKeyN o.text) <;>
          simp [extBest, extScan, specBestExt, extOkSpec, gapsOk, concatUpTo, h0, hg1]
      · cases h1 : validKeys.contains (orgKeyN (o.text ++ 32 :: c1.text))
        · cases h0 : validKeys.contains (orgKeyN o.text) <;>
            simp [extBest, extScan, specBestExt, extOkSpec, gapsOk, concatUpTo,
              h0, hg1, h1]
        · simp [extBest, extScan, specBestExt, extOkSpec, gapsOk, concatUpTo, hg1, h1]
    | cons c2 rest2 =>
      cases hg1 : lightGap (sliceN docText o.endc c1.startc)
      · cases h0 : validKeys.contains (orgKeyN o.text) <;>
          simp [extBest, extScan, specBestExt, extOkSpec, gapsOk, concatUpTo, h0, hg1]
      · cases hg2 : lightGap (sliceN docText c1.endc c2.startc)
        · cases h1 : validKeys.contains (orgKeyN (o.text ++ 32 :: c1.text))
          · cases h0 : validKeys.contains (orgKeyN o.text) <;>
              simp [extBest, extScan, specBestExt, extOkSpec, gapsOk, concatUpTo,
                h0, hg1, hg2, h1]
          · simp [extBest, extScan, specBestExt, extOkSpec, gapsOk, concatUpTo,
              hg1, hg2, h1]
        · cases h2 : validKeys.contains
            (orgKeyN ((o.text ++ 32 :: c1.text) ++ 32 :: c2.text))
          · cases h1 : validKeys.contains (orgKeyN (o.text ++ 32 :: c1.text))
            · cases h0 : validKeys.contains (orgKeyN o.text) <;>
                simp [extBest, extScan, specBestExt, extOkSpec, gapsOk, concatUpTo,
                  h0, hg1, hg2, h1, h2, List.append_assoc]
            · simp [extBest, extScan, specBestExt, extOkSpec, gapsOk, concatUpTo,
                hg1, hg2, h1, h2, List.append_assoc]
          · simp [extBest, extScan, specBestExt, extOkSpec, gapsOk, concatUpTo,
              hg1, hg2, h2, List.append_assoc]

theorem coalesceAux_eq_spec (docText : PyStr) (validKeys : List PyStr) :
    ∀ fuel l, coalesceAux docText validKeys fuel l =
      specCoalesceAux docText validKeys fuel l := by
  intro fuel
  induction fuel with
  | zero => intro l; rfl
  | succ n ih =>
    intro l
    cases l with
    | nil => rfl
    | cons o rest =>
      cases hk : specBestExt docText validKeys o rest with
      | none =>
        have hnotmem : orgKeyN o.text ∉ validKeys := by
          intro hmem
          simp only [specBestExt, extOkSpec, gapsOk, concatUpTo] at hk
          split_ifs at hk
          all_goals simp_all
        simp [coalesceAux, specCoalesceAux, extBest_eq_specBestExt, hk, hnotmem, ih]
      | some k =>
        simp [coalesceAux, specCoalesceAux, extBest_eq_specBestExt, hk, ih]

/-- C6 (amended): the organization-block builder keeps, for each candidate
span, the longest valid extension by up to **2** immediately-following
organization-like spans (3 spans in total, `max_merge = 3` in the source)
— an extension is valid only if every gap between consecutive spans is
empty or pure light punctuation/bullets and the concatenation's
normalized key is in the valid set; else it keeps the single span only if
its own key is valid, else discards it. -/
theorem c6_coalescing_longest_valid_extension (docText : PyStr) (spans : List Ent)
    (validKeys : List PyStr) :
    buildOrgBlocksCoalesced docText spans validKeys =
      mkBlocks
        (specCoalesce docText validKeys
          (sortByStart (spans.filter (fun s => isOrgLike s.label))))
        docText.length := by
  simp only [buildOrgBlocksCoalesced, coalesceAnchors, specCoalesce]
  rw [coalesceAux_eq_spec]

-- ---------------------------------------------------------------------------
-- C9: the Serie IV splitter equals its declarative description
-- ---------------------------------------------------------------------------

/-- A chunk with a letter is nonempty, so the code's
`chunk and has_letters(chunk)` test equals the letters test alone. -/
theorem nonempty_and_letters (s : PyStr) :
    (!s.isEmpty && hasLettersN s) = hasLettersN s := by
  cases s <;> simp [hasLettersN]

theorem stepIV_eq (d : DocIV) (acc : List PyStr) (start : Nat) (e : TokEnt) :
    stepIV d (acc, start) e =
      (if hasLettersN (stripN (renderSlice d start e.endTok)) then
        acc ++ [stripN (renderSlice d start e.endTok)]
      else acc, e.endTok) := by
  simp only [stepIV, nonempty_and_letters]

theorem c9_fold (d : DocIV) :
    ∀ (sigs : List TokEnt) (acc : List PyStr) (start : Nat),
      finishIV d (sigs.foldl (stepIV d) (acc, start)) =
        acc ++ ((chunkBoundsIV d start sigs).map stripN).filter hasLettersN := by
  intro sigs
  induction sigs with
  | nil =>
    intro acc start
    rw [List.foldl_nil]
    simp only [finishIV, nonempty_and_letters]
    cases h : hasLettersN (stripN (renderSlice d start d.tokens.length)) <;>
      simp [chunkBoundsIV, h]
  | cons e es ih =>
    intro acc start
    rw [List.foldl_cons, stepIV_eq]
    cases h : hasLettersN (stripN (renderSlice d start e.endTok)) <;>
      simp [h, ih, chunkBoundsIV, List.filter_cons, List.append_assoc]

/-- `doc.text` is the full token render followed by the last token's
trailing whitespace. -/
theorem docTextIV_shape :
    ∀ (toks : List Token), toks ≠ [] →
      ∃ t, t ∈ toks ∧
        (toks.map (fun t => t.text ++ t.ws)).flatten = renderToks toks ++ t.ws := by
  intro toks
  induction toks with
  | nil => intro h; exact absurd rfl h
  | cons t ts ih =>
    intro _
    cases ts with
    | nil =>
      refine ⟨t, List.mem_singleton.mpr rfl, ?_⟩
      simp [renderToks]
    | cons t2 ts' =>
      rcases ih (by simp) with ⟨u, hu, heq⟩
      refine ⟨u, List.mem_cons_of_mem t hu, ?_⟩
      rw [List.map_cons, List.flatten_cons, heq]
      simp [renderToks, List.append_assoc]

theorem strip_append_space {y w : PyStr} (h : ∀ c ∈ w, isSpaceN c = true) :
    stripN (y ++ w) = stripN y := by
  unfold stripN stripLeftN
  rw [List.dropWhile_append]
  cases hy : y.dropWhile isSpaceN with
  | nil =>
    simp only [List.isEmpty_nil, if_true]
    rw [List.dropWhile_eq_nil_iff.mpr h]
  | cons c cs =>
    simp only [List.isEmpty_cons, Bool.false_eq_true, if_false]
    exact stripRight_append_space h

theorem renderSlice_full (d : DocIV) :
    renderSlice d 0 d.tokens.length = renderToks d.tokens := by
  unfold renderSlice
  rw [List.drop_zero, Nat.sub_zero, List.take_length]

/-- C9: `split_doc_by_assinatura` splits the body at the end of every
signature span (the signature included in the preceding chunk), dropping
stripped chunks with no alphabetic character — including the trailing
chunk after the last signature — and with zero signature spans the whole
body is one chunk, dropped if letterless.  (Hypothesis: token trailing
whitespace really is whitespace, as spaCy guarantees.) -/
theorem c9_signature_splitter (d : DocIV)
    (hws : ∀ t ∈ d.tokens, ∀ c ∈ t.ws, isSpaceN c = true) :
    splitDocByAssinatura d = ⟨none, specSplitIV d⟩ := by
  unfold splitDocByAssinatura specSplitIV
  cases hsig : (sortByStartTok (d.ents.filter (fun e => e.label == .assinaturaL))) with
  | nil =>
    simp only [List.isEmpty_nil, if_true]
    have hdoc : stripN (docTextIV d) = stripN (renderSlice d 0 d.tokens.length) := by
      rw [renderSlice_full]
      cases htoks : d.tokens with
      | nil =>
        unfold docTextIV
        rw [htoks]
        rfl
      | cons t ts =>
        rcases docTextIV_shape d.tokens (by rw [htoks]; simp) with ⟨u, hu, heq⟩
        unfold docTextIV
        rw [heq, strip_append_space (hws u hu), htoks]
    rw [hdoc, nonempty_and_letters]
    simp only [chunkBoundsIV, List.map_cons, List.map_nil]
    cases h : hasLettersN (stripN (renderSlice d 0 d.tokens.length)) <;>
      simp [h]
  | cons e es =>
    simp only [List.isEmpty_cons, if_false, Bool.false_eq_true]
    rw [c9_fold d (e :: es) [] 0]
    simp

/-- Witness for C9: Scenario E — two signature spans and a letterless
trailing chunk yield exactly 2 chunks. -/
theorem c9_signature_splitter_witness :
    (∀ t ∈ c9doc.tokens, ∀ c ∈ t.ws, isSpaceN c = true) ∧
      (splitDocByAssinatura c9doc).docs.length = 2 ∧
      splitDocByAssinatura c9doc = ⟨none, specSplitIV c9doc⟩ :=
  ⟨by decide, by decide, c9_signature_splitter c9doc (by decide)⟩

-- ---------------------------------------------------------------------------
-- C2: the four matching passes claim every span position at most once
-- ---------------------------------------------------------------------------

theorem mLookup_update_self {m : List (KeyT × Option MInfo)} {k : KeyT}
    (v : Option MInfo) (h : (mLookup m k).isSome) :
    mLookup (mUpdate m k v) k = some v := by
  induction m with
  | nil => simp [mLookup] at h
  | cons p rest ih =>
    obtain ⟨k', v'⟩ := p
    by_cases hk : k' = k
    · simp [mUpdate, mLookup, hk]
    · rw [mUpdate, if_neg hk, mLookup, if_neg hk]
      rw [mLookup, if_neg hk] at h
      exact ih h

theorem mUpdate_of_not_found {m : List (KeyT × Option MInfo)} {k : KeyT}
    (v : Option MInfo) (h : mLookup m k = none) : mUpdate m k v = m := by
  induction m with
  | nil => rfl
  | cons p rest ih =>
    obtain ⟨k', v'⟩ := p
    by_cases hk : k' = k
    · rw [mLookup, if_pos hk] at h
      exact absurd h (by simp)
    · rw [mLookup, if_neg hk] at h
      rw [mUpdate, if_neg hk, ih h]

theorem mLookup_update_ne {m : List (KeyT × Option MInfo)} {k k' : KeyT}
    (v : Option MInfo) (h : k' ≠ k) :
    mLookup (mUpdate m k v) k' = mLookup m k' := by
  induction m with
  | nil => rfl
  | cons p rest ih =>
    obtain ⟨k0, v0⟩ := p
    by_cases hk : k0 = k
    · subst hk
      rw [mUpdate, if_pos rfl, mLookup, if_neg (fun hh => h hh.symm), mLookup,
        if_neg (fun hh => h hh.symm)]
    · rw [mUpdate, if_neg hk]
      by_cases hk' : k0 = k'
      · rw [mLookup, if_pos hk', mLookup, if_pos hk']
      · rw [mLookup, if_neg hk', mLookup, if_neg hk']
        exact ih

/-- `claim` preserves the invariant when the claimed position is fresh. -/
theorem MInv_claim {st : MState} {k : KeyT} {bt : BodyTitle} {conf : Conf}
    {ws : List Window} (hinv : MInv st)
    (hfresh : (bt.startc, bt.endc) ∉ st.2) : MInv (mClaim st k bt conf ws) := by
  obtain ⟨M, C⟩ := st
  constructor
  · intro k' m' h'
    by_cases hk : k' = k
    · subst hk
      by_cases hfound : (mLookup M k').isSome
      · rw [show (mClaim (M, C) k' bt conf ws).1 =
            mUpdate M k' (some ⟨bt.startc, bt.endc, locateWindow bt.startc ws, conf⟩)
            from rfl, mLookup_update_self _ hfound] at h'
        simp only [Option.some_inj] at h'
        rw [← h']
        exact List.mem_cons_self _ _
      · have hnone : mLookup M k' = none := Option.not_isSome_iff_eq_none.mp hfound
        rw [show (mClaim (M, C) k' bt conf ws).1 =
            mUpdate M k' (some ⟨bt.startc, bt.endc, locateWindow bt.startc ws, conf⟩)
            from rfl, mUpdate_of_not_found _ hnone, hnone] at h'
        exact absurd h' (by simp)
    · rw [show (mClaim (M, C) k bt conf ws).1 =
          mUpdate M k (some ⟨bt.startc, bt.endc, locateWindow bt.startc ws, conf⟩)
          from rfl, mLookup_update_ne _ hk] at h'
      exact List.mem_cons_of_mem _ (hinv.1 k' m' h')
  · intro k1 k2 m1 m2 hne h1 h2
    have claim1 : (mClaim (M, C) k bt conf ws).1 =
        mUpdate M k (some ⟨bt.startc, bt.endc, locateWindow bt.startc ws, conf⟩) := rfl
    by_cases hk1 : k1 = k
    · subst hk1
      by_cases hfound : (mLookup M k1).isSome
      · rw [claim1, mLookup_update_self _ hfound] at h1
        simp only [Option.some_inj] at h1
        have hk2 : k2 ≠ k1 := fun hh => hne hh.symm
        rw [claim1, mLookup_update_ne _ hk2] at h2
        have hmem := hinv.1 k2 m2 h2
        rw [← h1]
        intro heq
        rw [heq] at hfresh
        exact hfresh hmem
      · have hnone : mLookup M k1 = none := Option.not_isSome_iff_eq_none.mp hfound
        rw [claim1, mUpdate_of_not_found _ hnone, hnone] at h1
        exact absurd h1 (by simp)
    · by_cases hk2 : k2 = k
      · subst hk2
        by_cases hfound : (mLookup M k2).isSome
        · rw [claim1, mLookup_update_self _ hfound] at h2
          simp only [Option.some_inj] at h2
          rw [claim1, mLookup_update_ne _ hk1] at h1
          have hmem := hinv.1 k1 m1 h1
          rw [← h2]
          intro heq
          rw [← heq] at hfresh
          exact hfresh hmem
        · have hnone : mLookup M k2 = none := Option.not_isSome_iff_eq_none.mp hfound
          rw [claim1, mUpdate_of_not_found _ hnone, hnone] at h2
          exact absurd h2 (by simp)
      · rw [claim1, mLookup_update_ne _ hk1] at h1
        rw [claim1, mLookup_update_ne _ hk2] at h2
        exact hinv.2 k1 k2 m1 m2 hne h1 h2

theorem foldl_preserve {σ α : Type} (P : σ → Prop) (f : σ → α → σ)
    (h : ∀ s a, P s → P (f s a)) : ∀ (l : List α) (s : σ), P s → P (l.foldl f s) := by
  intro l
  induction l with
  | nil => exact fun s hs => hs
  | cons a t ih => exact fun s hs => ih (f s a) (h s a hs)

/-- Passes 1–3 preserve the invariant: they only claim a body title whose
position the `claimed_positions` check just found unclaimed. -/
theorem MInv_passRun (skipMatched : Bool) (cond : PayloadTitle → BodyTitle → Bool)
    (conf : Conf) (ws : List Window) (bts : List BodyTitle)
    (pts : List PayloadTitle) {st : MState} (hinv : MInv st) :
    MInv (passRun skipMatched cond conf ws bts pts st) := by
  refine foldl_preserve MInv _ (fun s pt hs => ?_) pts st hinv
  by_cases hskip : skipMatched && isMatchedSt s.1 pt.key
  · simp only [hskip, if_true]
    exact hs
  · simp only [hskip, Bool.false_eq_true, if_false]
    cases hfind : bts.find? (fun bt => !s.2.contains (bt.startc, bt.endc) && cond pt bt) with
    | none => exact hs
    | some bt =>
      have hp := List.find?_some hfind
      simp only [Bool.and_eq_true, Bool.not_eq_eq_eq_not, Bool.not_true] at hp
      refine MInv_claim hs ?_
      intro hmem
      have hc : s.2.contains (bt.startc, bt.endc) = true := by simpa using hmem
      rw [hc] at hp
      exact absurd hp.1 (by simp)

theorem foldl_option_prop {α β : Type} (P : β → Prop) (f : Option β → α → Option β)
    (hstep : ∀ acc x, f acc x = acc ∨ ∃ p, f acc x = some p ∧ P p) :
    ∀ (l : List α) (acc : Option β), (∀ p, acc = some p → P p) →
      ∀ p, l.foldl f acc = some p → P p := by
  intro l
  induction l with
  | nil => exact fun acc hacc p hp => hacc p hp
  | cons x t ih =>
    intro acc hacc p hp
    rw [List.foldl_cons] at hp
    rcases hstep acc x with h | ⟨q, hq, hPq⟩
    · exact ih acc hacc p (by rw [h] at hp; exact hp)
    · refine ih (f acc x) (fun r hr => ?_) p hp
      rw [hq] at hr
      simp only [Option.some_inj] at hr
      rw [← hr]
      exact hPq

/-- A step of pass 4's scan either keeps the accumulator or proposes an
unclaimed candidate. -/
theorem pass4Step_cases (claimed : List (Nat × Nat)) (a : PyStr)
    (acc : Option (BodyTitle × Conf)) (bt : BodyTitle) :
    pass4Step claimed a acc bt = acc ∨
      ∃ p, pass4Step claimed a acc bt = some p ∧
        (p.1.startc, p.1.endc) ∉ claimed := by
  simp only [pass4Step]
  split_ifs with h1 h2 h3 h4 h5 <;>
    first
      | exact Or.inl rfl
      | exact Or.inr ⟨_, rfl, fun hmem => h1 (by simpa using hmem)⟩

/-- Pass 4 preserves the invariant: its best candidate is selected among
unclaimed positions only. -/
theorem MInv_pass4 (ws : List Window) (bts : List BodyTitle)
    (pts : List PayloadTitle) {st : MState} (hinv : MInv st) :
    MInv (pass4 ws bts pts st) := by
  refine foldl_preserve MInv _ (fun s pt hs => ?_) (sortDescLen pts) st hinv
  by_cases hskip : isMatchedSt s.1 pt.key
  · simp only [hskip, if_true]
    exact hs
  · simp only [hskip, Bool.false_eq_true, if_false]
    by_cases hempty : pt.letters.isEmpty
    · simp only [hempty, if_true]
      exact hs
    · simp only [hempty, Bool.false_eq_true, if_false]
      have hbest : ∀ p, bts.foldl (pass4Step s.2 pt.letters) none = some p →
          (p.1.startc, p.1.endc) ∉ s.2 :=
        foldl_option_prop _ _ (pass4Step_cases s.2 pt.letters · ·) bts none
          (fun p hp => absurd hp (by simp))
      cases hfold : bts.foldl (pass4Step s.2 pt.letters) none with
      | none => exact hs
      | some p => exact MInv_claim hs (hbest p hfold)

theorem mLookup_append_single (m : List (KeyT × Option MInfo)) (k0 : KeyT)
    (v0 : Option MInfo) (k : KeyT) :
    mLookup (m ++ [(k0, v0)]) k =
      match mLookup m k with
      | some v => some v
      | none => if k0 = k then some v0 else none := by
  induction m with
  | nil => rfl
  | cons q rest ih =>
    obtain ⟨k', v'⟩ := q
    by_cases hk : k' = k
    · show (if k' = k then some v' else mLookup (rest ++ [(k0, v0)]) k) = _
      rw [if_pos hk]
      show _ = (match (if k' = k then some v' else mLookup rest k) with
        | some v => some v
        | none => if k0 = k then some v0 else none)
      rw [if_pos hk]
    · show (if k' = k then some v' else mLookup (rest ++ [(k0, v0)]) k) = _
      rw [if_neg hk, ih]
      show _ = (match (if k' = k then some v' else mLookup rest k) with
        | some v => some v
        | none => if k0 = k then some v0 else none)
      rw [if_neg hk]

/-- The initial matches dict maps every key to `None`. -/
theorem m0_all_none (pts : List PayloadTitle) :
    ∀ k v, mLookup (pts.foldl (fun m pt =>
      if (mLookup m pt.key).isSome then m else m ++ [(pt.key, none)]) []) k =
        some v → v = none := by
  refine foldl_preserve (fun m => ∀ k v, mLookup m k = some v → v = none) _
    (fun m pt hm k v => ?_) pts [] (fun k v h => by simp [mLookup] at h)
  by_cases hf : (mLookup m pt.key).isSome
  · rw [if_pos hf]
    exact hm k v
  · rw [if_neg hf, mLookup_append_single]
    cases hmk : mLookup m k with
    | some w =>
      intro h
      simp only [Option.some_inj] at h
      exact hm k v (by rw [hmk, h])
    | none =>
      by_cases hk : pt.key = k
      · rw [if_pos hk]
        intro h
        simp only [Option.some_inj] at h
        exact h.symm
      · rw [if_neg hk]
        intro h
        exact absurd h (by simp)

/-- C2: after a full run of the four matching passes, no body span
position anchors more than one payload key. -/
theorem c2_at_most_one_claim (ents : List Ent) (items : List PItem)
    (ws : List Window) (k1 k2 : KeyT) (m1 m2 : MInfo) (hne : k1 ≠ k2)
    (h1 : mLookup (matchDocTypeHeaders ents items ws) k1 = some (some m1))
    (h2 : mLookup (matchDocTypeHeaders ents items ws) k2 = some (some m2)) :
    (m1.startc, m1.endc) ≠ (m2.startc, m2.endc) := by
  have hinit : MInv
      ((payloadTitlesOf items).foldl (fun m pt =>
        if (mLookup m pt.key).isSome then m else m ++ [(pt.key, none)]) [], []) := by
    constructor
    · intro k m h
      exact absurd (m0_all_none (payloadTitlesOf items) k (some m) h) (by simp)
    · intro k1' k2' m1' m2' _ h1' _
      exact absurd (m0_all_none (payloadTitlesOf items) k1' (some m1') h1') (by simp)
  have hfinal : MInv (pass4 ws (bodyTitlesOf ents) (payloadTitlesOf items)
      (passRun true cond3 conf90 ws (bodyTitlesOf ents) (payloadTitlesOf items)
        (passRun true cond2 conf95 ws (bodyTitlesOf ents) (payloadTitlesOf items)
          (passRun false cond1 confOne ws (bodyTitlesOf ents) (payloadTitlesOf items)
            ((payloadTitlesOf items).foldl (fun m pt =>
              if (mLookup m pt.key).isSome then m else m ++ [(pt.key, none)]) [],
              []))))) :=
    MInv_pass4 _ _ _ (MInv_passRun _ _ _ _ _ _ (MInv_passRun _ _ _ _ _ _
      (MInv_passRun _ _ _ _ _ _ hinit)))
  exact hfinal.2 k1 k2 m1 m2 hne h1 h2

/-- Witness for C2: both payload items claim distinct spans. -/
theorem c2_at_most_one_claim_witness :
    docTypeKey c2itemA ≠ docTypeKey c2itemB ∧
      mLookup (matchDocTypeHeaders [c2entA, c2entB] [c2itemA, c2itemB]
        [⟨globalName, 0, 30⟩]) (docTypeKey c2itemA) =
        some (some ⟨10, 15, some 0, confOne⟩) ∧
      mLookup (matchDocTypeHeaders [c2entA, c2entB] [c2itemA, c2itemB]
        [⟨globalName, 0, 30⟩]) (docTypeKey c2itemB) =
        some (some ⟨20, 24, some 0, confOne⟩) ∧
      ((10, 15) : Nat × Nat) ≠ (20, 24) :=
  ⟨by decide, by decide, by decide,
    c2_at_most_one_claim [c2entA, c2entB] [c2itemA, c2itemB] [⟨globalName, 0, 30⟩]
      (docTypeKey c2itemA) (docTypeKey c2itemB) ⟨10, 15, some 0, confOne⟩
      ⟨20, 24, some 0, confOne⟩ (by decide) (by decide) (by decide)⟩

-- ---------------------------------------------------------------------------
-- C3: per-pair behaviour of the four passes (singleton payload and body)
-- ---------------------------------------------------------------------------

theorem find?_singleton {α : Type} (p : α → Bool) (x : α) :
    [x].find? p = if p x then some x else none := by
  cases hp : p x
  · rw [List.find?_cons_of_neg _ (by simp [hp]), if_neg (by simp [hp])]
    rfl
  · rw [List.find?_cons_of_pos _ hp]
    simp

theorem passRun_singleton (skip : Bool) (cond : PayloadTitle → BodyTitle → Bool)
    (conf : Conf) (ws : List Window) (bt : BodyTitle) (pt : PayloadTitle)
    (st : MState) :
    passRun skip cond conf ws [bt] [pt] st =
      if skip && isMatchedSt st.1 pt.key then st
      else if !st.2.contains (bt.startc, bt.endc) && cond pt bt then
        mClaim st pt.key bt conf ws
      else st := by
  unfold passRun
  simp only [List.foldl_cons, List.foldl_nil, find?_singleton]
  by_cases hskip : (skip && isMatchedSt st.1 pt.key) = true
  · rw [if_pos hskip, if_pos hskip]
  · rw [if_neg hskip, if_neg hskip]
    by_cases hp : (!st.2.contains (bt.startc, bt.endc) && cond pt bt) = true
    · rw [if_pos hp, if_pos hp]
    · rw [if_neg hp, if_neg hp]

theorem pass4_singleton (ws : List Window) (bt : BodyTitle) (pt : PayloadTitle)
    (st : MState) :
    pass4 ws [bt] [pt] st =
      if isMatchedSt st.1 pt.key then st
      else if pt.letters.isEmpty then st
      else
        match pass4Step st.2 pt.letters none bt with
        | some p => mClaim st pt.key p.1 (confMul conf80 p.2) ws
        | none => st := rfl

theorem mLookup_singleton_self (k : KeyT) (v : Option MInfo) :
    mLookup [(k, v)] k = some v := by
  simp [mLookup]

theorem isMatchedSt_singleton_some (k : KeyT) (info : MInfo) :
    isMatchedSt [(k, some info)] k = true := by
  simp [isMatchedSt, mLookup]

theorem isMatchedSt_singleton_none (k : KeyT) :
    isMatchedSt [(k, none)] k = false := by
  simp [isMatchedSt, mLookup]

theorem mClaim_singleton (k : KeyT) (bt : BodyTitle) (conf : Conf)
    (ws : List Window) (C : List (Nat × Nat)) :
    mClaim ([(k, none)], C) k bt conf ws =
      ([(k, some ⟨bt.startc, bt.endc, locateWindow bt.startc ws, conf⟩)],
        (bt.startc, bt.endc) :: C) := by
  simp [mClaim, mUpdate]

theorem length_pos_of_not_isEmpty {l : PyStr} (h : l.isEmpty = false) :
    0 < l.length := by
  cases l with
  | nil => simp [List.isEmpty] at h
  | cons a l => exact Nat.succ_pos l.length

set_option maxHeartbeats 1600000 in
/-- A full four-pass run on one payload title against one body title computes
exactly the amended tier cascade. -/
theorem singleton_cascade (K : KeyT) (A B : PyStr) (s t : Nat) (ws : List Window) :
    mLookup (pass4 ws [⟨s, t, B, canonNorm B, canonTight B, canonLetters B⟩]
        [⟨K, A, canonNorm A, canonTight A, canonLetters A⟩]
        (passRun true cond3 conf90 ws
          [⟨s, t, B, canonNorm B, canonTight B, canonLetters B⟩]
          [⟨K, A, canonNorm A, canonTight A, canonLetters A⟩]
          (passRun true cond2 conf95 ws
            [⟨s, t, B, canonNorm B, canonTight B, canonLetters B⟩]
            [⟨K, A, canonNorm A, canonTight A, canonLetters A⟩]
            (passRun false cond1 confOne ws
              [⟨s, t, B, canonNorm B, canonTight B, canonLetters B⟩]
              [⟨K, A, canonNorm A, canonTight A, canonLetters A⟩]
              ([(K, none)], []))))).1 K =
      some ((specTierAmendedC3 A B).map
        (fun c => MInfo.mk s t (locateWindow s ws) c)) := by
  rw [passRun_singleton false cond1, passRun_singleton true cond2,
    passRun_singleton true cond3, pass4_singleton]
  simp only [cond1, cond2, cond3]
  cases h1 : (canonNorm B == canonNorm A && !(canonNorm B).isEmpty) with
  | true =>
    simp [h1, specTierAmendedC3, mClaim, mUpdate, isMatchedSt, mLookup]
  | false =>
    cases h2 : (canonTight B == canonTight A && !(canonTight B).isEmpty) with
    | true =>
      simp [h1, h2, specTierAmendedC3, mClaim, mUpdate, isMatchedSt, mLookup]
    | false =>
      cases hbe : (canonLetters B).isEmpty with
      | true =>
        cases hae : (canonLetters A).isEmpty with
        | true =>
          simp [h1, h2, hbe, hae, specTierAmendedC3, isMatchedSt, mLookup]
        | false =>
          simp [h1, h2, hbe, hae, specTierAmendedC3, pass4Step, isMatchedSt,
            mLookup]
      | false =>
        cases h3 : (canonLetters B == canonLetters A) with
        | true =>
          simp [h1, h2, h3, hbe, specTierAmendedC3, mClaim, mUpdate,
            isMatchedSt, mLookup]
        | false =>
          cases hae : (canonLetters A).isEmpty with
          | true =>
            simp [h1, h2, h3, hbe, hae, specTierAmendedC3, isMatchedSt, mLookup]
          | false =>
            have hapos : 0 < (canonLetters A).length :=
              length_pos_of_not_isEmpty hae
            have hbpos : 0 < (canonLetters B).length :=
              length_pos_of_not_isEmpty hbe
            have hminpos :
                0 < min (canonLetters A).length (canonLetters B).length :=
              lt_min hapos hbpos
            have hmaxne :
                ¬ (max (canonLetters A).length (canonLetters B).length = 0) := by
              have := Nat.le_max_right (canonLetters A).length
                (canonLetters B).length
              omega
            cases h6 : (containsSeg (canonLetters A) (canonLetters B)
                || containsSeg (canonLetters B) (canonLetters A)) with
            | false =>
              simp [h1, h2, h3, hbe, hae, h6, specTierAmendedC3, pass4Step,
                isMatchedSt, mLookup]
            | true =>
              have hcltz : confLt confZero
                  ⟨min (canonLetters A).length (canonLetters B).length,
                    max (canonLetters A).length (canonLetters B).length⟩
                    = true := by
                simp only [confLt, confZero, decide_eq_true_eq, Nat.zero_mul,
                  Nat.mul_one]
                exact hminpos
              cases h7 : confLe conf80
                  ⟨min (canonLetters A).length (canonLetters B).length,
                    max (canonLetters A).length (canonLetters B).length⟩ with
              | true =>
                simp [h1, h2, h3, hbe, hae, h6, h7, hmaxne, hcltz,
                  specTierAmendedC3, pass4Step, mClaim, mUpdate, isMatchedSt,
                  mLookup]
              | false =>
                simp [h1, h2, h3, hbe, hae, h6, h7, hmaxne, hcltz,
                  specTierAmendedC3, pass4Step, isMatchedSt, mLookup]

/-- C3: for every payload-title / body-document-name pair, matched in
isolation, the matcher realises the amended tier cascade: exact normalized
(1.0), tight (0.95), letters-only exact (0.90), letters-only containment
with ratio at least 0.80 (0.8 × ratio), applied in that order with the
first success winning — each tier additionally requiring the compared
canonical form to be nonempty. -/
theorem c3_tier_cascade (item : PItem) (e : Ent) (ws : List Window)
    (hlabel : e.label = Label.docNameL)
    (htitle : (normTitleN (item.docName.getD [])).isEmpty = false)
    (hbody : (normTitleN e.text).isEmpty = false) :
    mLookup (matchDocTypeHeaders [e] [item] ws) (docTypeKey item) =
      some ((specTierAmendedC3 (normTitleN (item.docName.getD []))
          (normTitleN e.text)).map
        (fun c => MInfo.mk e.startc e.endc (locateWindow e.startc ws) c)) := by
  have htitle' : normTitleN (item.docName.getD []) ≠ [] := by
    simpa using htitle
  have hbody' : normTitleN e.text ≠ [] := by
    simpa using hbody
  have hpts : payloadTitlesOf [item] =
      [⟨docTypeKey item, normTitleN (item.docName.getD []),
        canonNorm (normTitleN (item.docName.getD [])),
        canonTight (normTitleN (item.docName.getD [])),
        canonLetters (normTitleN (item.docName.getD []))⟩] := by
    simp [payloadTitlesOf, htitle']
  have hbts : bodyTitlesOf [e] =
      [⟨e.startc, e.endc, normTitleN e.text, canonNorm (normTitleN e.text),
        canonTight (normTitleN e.text), canonLetters (normTitleN e.text)⟩] := by
    simp [bodyTitlesOf, hlabel, hbody']
  have hrun : matchDocTypeHeaders [e] [item] ws =
      (pass4 ws
        [⟨e.startc, e.endc, normTitleN e.text, canonNorm (normTitleN e.text),
          canonTight (normTitleN e.text), canonLetters (normTitleN e.text)⟩]
        [⟨docTypeKey item, normTitleN (item.docName.getD []),
          canonNorm (normTitleN (item.docName.getD [])),
          canonTight (normTitleN (item.docName.getD [])),
          canonLetters (normTitleN (item.docName.getD []))⟩]
        (passRun true cond3 conf90 ws
          [⟨e.startc, e.endc, normTitleN e.text, canonNorm (normTitleN e.text),
            canonTight (normTitleN e.text), canonLetters (normTitleN e.text)⟩]
          [⟨docTypeKey item, normTitleN (item.docName.getD []),
            canonNorm (normTitleN (item.docName.getD [])),
            canonTight (normTitleN (item.docName.getD [])),
            canonLetters (normTitleN (item.docName.getD []))⟩]
          (passRun true cond2 conf95 ws
            [⟨e.startc, e.endc, normTitleN e.text, canonNorm (normTitleN e.text),
              canonTight (normTitleN e.text), canonLetters (normTitleN e.text)⟩]
            [⟨docTypeKey item, normTitleN (item.docName.getD []),
              canonNorm (normTitleN (item.docName.getD [])),
              canonTight (normTitleN (item.docName.getD [])),
              canonLetters (normTitleN (item.docName.getD []))⟩]
            (passRun false cond1 confOne ws
              [⟨e.startc, e.endc, normTitleN e.text,
                canonNorm (normTitleN e.text), canonTight (normTitleN e.text),
                canonLetters (normTitleN e.text)⟩]
              [⟨docTypeKey item, normTitleN (item.docName.getD []),
                canonNorm (normTitleN (item.docName.getD [])),
                canonTight (normTitleN (item.docName.getD [])),
                canonLetters (normTitleN (item.docName.getD []))⟩]
              ([(docTypeKey item, none)], []))))).1 := by
    simp only [matchDocTypeHeaders, hpts, hbts]
    rfl
  rw [hrun]
  exact singleton_cascade (docTypeKey item) (normTitleN (item.docName.getD []))
    (normTitleN e.text) e.startc e.endc ws

/-- Witness for C3 at a concrete tier-1 pair. -/
theorem c3_tier_cascade_witness :
    c3wEnt.label = Label.docNameL ∧
    (normTitleN (c3wItem.docName.getD [])).isEmpty = false ∧
    (normTitleN c3wEnt.text).isEmpty = false ∧
    mLookup (matchDocTypeHeaders [c3wEnt] [c3wItem] []) (docTypeKey c3wItem) =
      some ((specTierAmendedC3 (normTitleN (c3wItem.docName.getD []))
          (normTitleN c3wEnt.text)).map
        (fun c => MInfo.mk c3wEnt.startc c3wEnt.endc
          (locateWindow c3wEnt.startc []) c)) :=
  ⟨rfl, by decide, by decide,
    c3_tier_cascade c3wItem c3wEnt [] rfl (by decide) (by decide)⟩

-- ---------------------------------------------------------------------------
-- C4: the boundary detector (split_sumario_and_body)
-- ---------------------------------------------------------------------------

theorem find?_append_of_none {α : Type} (p : α → Bool) :
    ∀ (l1 l2 : List α), l1.find? p = none → (l1 ++ l2).find? p = l2.find? p := by
  intro l1 l2 h
  induction l1 with
  | nil => rfl
  | cons a t ih =>
    cases hp : p a with
    | true =>
      rw [List.find?_cons_of_pos _ hp] at h
      exact absurd h (by simp)
    | false =>
      rw [List.find?_cons_of_neg _ (by simp [hp])] at h
      rw [List.cons_append, List.find?_cons_of_neg _ (by simp [hp])]
      exact ih h

/-- The reversed-scan of the source selects the **last** `Sumario` span. -/
theorem find_last_sumario {l1 l2 : List Ent} {s : Ent}
    (hs : s.label = Label.sumarioL) (h2 : ∀ e ∈ l2, e.label ≠ Label.sumarioL) :
    ((l1 ++ s :: l2).reverse).find? (fun e => e.label == Label.sumarioL) = some s := by
  rw [List.reverse_append, List.reverse_cons]
  have hnone : (l2.reverse).find? (fun e => e.label == Label.sumarioL) = none :=
    List.find?_eq_none.mpr (fun x hx => by
      have := h2 x (List.mem_reverse.mp hx)
      simp [this])
  rw [List.append_assoc, find?_append_of_none _ _ _ hnone, List.cons_append,
    List.find?_cons_of_pos _ (by simp [hs])]

/-- C4: the boundary detector selects the **last** `Sumario` span and
returns each failure as data with a reason code: no `Sumario` span at all
gives `(None, whole text, no_sumario)`; a `Sumario` with no
organization-like span after it gives `(rest of text, "", 
no_org_after_sumario)`; organization spans whose letters-only keys never
repeat the first one's key (nor are a strict letters-only substring of
it), including the junk-label fallback, give `(rest of text, "",
no_repeat_match)`. -/
theorem c4_boundary_detector (ents : List Ent) (text : PyStr) :
    ((∀ e ∈ ents, e.label ≠ Label.sumarioL) →
      splitSumarioAndBody ents text = ⟨none, text, some SReason.noSumario⟩) ∧
    (∀ l1 s l2, ents = l1 ++ s :: l2 → s.label = Label.sumarioL →
      (∀ e ∈ l2, e.label ≠ Label.sumarioL) →
      ((∀ e ∈ ents, s.endc ≤ e.startc → isOrgLike e.label = false) →
        splitSumarioAndBody ents text =
          ⟨some (text.drop s.endc), [], some SReason.noOrgAfterSumario⟩) ∧
      (∀ first restOrgs,
        ents.filter (fun e => s.endc ≤ e.startc && isOrgLike e.label) =
          first :: restOrgs →
        (∀ e ∈ restOrgs,
          lettersFoldSplit e.text ≠ lettersFoldSplit first.text ∧
          ¬(containsSeg (lettersFoldSplit e.text) (lettersFoldSplit first.text) = true ∧
            (lettersFoldSplit e.text).length < (lettersFoldSplit first.text).length)) →
        (∀ e ∈ ents, s.endc ≤ e.startc → e.label = Label.junkL →
          lettersFoldSplit e.text ≠ lettersFoldSplit first.text ∧
          ¬(containsSeg (lettersFoldSplit e.text) (lettersFoldSplit first.text) = true ∧
            (lettersFoldSplit e.text).length < (lettersFoldSplit first.text).length)) →
        splitSumarioAndBody ents text =
          ⟨some (text.drop s.endc), [], some SReason.noRepeatMatch⟩)) := by
  constructor
  · intro h
    have hnone : (ents.reverse).find? (fun e => e.label == Label.sumarioL) = none :=
      List.find?_eq_none.mpr (fun x hx => by
        have := h x (List.mem_reverse.mp hx)
        simp [this])
    simp only [splitSumarioAndBody, hnone]
  · intro l1 s l2 hdecomp hs hlast
    have hfind : (ents.reverse).find? (fun e => e.label == Label.sumarioL) = some s := by
      rw [hdecomp]
      exact find_last_sumario hs hlast
    constructor
    · intro hnoorg
      have hfilter :
          ents.filter (fun e => s.endc ≤ e.startc && isOrgLike e.label) = [] :=
        List.filter_eq_nil_iff.mpr (fun e he => by
          by_cases hle : s.endc ≤ e.startc
          · simp [hle, hnoorg e he hle]
          · simp [hle])
      simp only [splitSumarioAndBody, hfind, hfilter]
    · intro first restOrgs hfilter hrest hjunk
      have hkey1 : restOrgs.find?
          (fun e => lettersFoldSplit e.text == lettersFoldSplit first.text) = none :=
        List.find?_eq_none.mpr (fun e he => by simp [(hrest e he).1])
      have hkey2 : restOrgs.find?
          (fun e => containsSeg (lettersFoldSplit e.text) (lettersFoldSplit first.text) &&
            decide ((lettersFoldSplit e.text).length <
              (lettersFoldSplit first.text).length)) = none :=
        List.find?_eq_none.mpr (fun e he => by
          intro hp
          simp only [Bool.and_eq_true, decide_eq_true_eq] at hp
          exact (hrest e he).2 hp)
      have hjunkmem : ∀ e ∈ ents.filter
          (fun e => s.endc ≤ e.startc && e.label == Label.junkL),
          lettersFoldSplit e.text ≠ lettersFoldSplit first.text ∧
          ¬(containsSeg (lettersFoldSplit e.text) (lettersFoldSplit first.text) = true ∧
            (lettersFoldSplit e.text).length < (lettersFoldSplit first.text).length) := by
        intro e he
        have hm := List.mem_filter.mp he
        have hp := hm.2
        simp only [Bool.and_eq_true, decide_eq_true_eq, beq_iff_eq] at hp
        exact hjunk e hm.1 hp.1 hp.2
      have hkey3 : (ents.filter
          (fun e => s.endc ≤ e.startc && e.label == Label.junkL)).find?
          (fun e => lettersFoldSplit e.text == lettersFoldSplit first.text) = none :=
        List.find?_eq_none.mpr (fun e he => by simp [(hjunkmem e he).1])
      have hkey4 : (ents.filter
          (fun e => s.endc ≤ e.startc && e.label == Label.junkL)).find?
          (fun e => containsSeg (lettersFoldSplit e.text) (lettersFoldSplit first.text) &&
            decide ((lettersFoldSplit e.text).length <
              (lettersFoldSplit first.text).length)) = none :=
        List.find?_eq_none.mpr (fun e he => by
          intro hp
          simp only [Bool.and_eq_true, decide_eq_true_eq] at hp
          exact (hjunkmem e he).2 hp)
      simp only [splitSumarioAndBody, hfind, hfilter, findRepeat, hkey1, hkey2,
        hkey3, hkey4]

/-- Witness for C4 at the three failure scenarios. -/
theorem c4_boundary_detector_witness :
    splitSumarioAndBody c4entsA c4text = ⟨none, c4text, some SReason.noSumario⟩ ∧
      splitSumarioAndBody c4entsB c4text =
        ⟨some (c4text.drop 7), [], some SReason.noOrgAfterSumario⟩ ∧
      splitSumarioAndBody c4entsC c4text =
        ⟨some (c4text.drop 7), [], some SReason.noRepeatMatch⟩ :=
  ⟨(c4_boundary_detector c4entsA c4text).1 (by decide),
    ((c4_boundary_detector c4entsB c4text).2 [] c4sum [] rfl rfl (by decide)).1
      (by decide),
    (((c4_boundary_detector c4entsC c4text).2 [] c4sum [c4org] rfl rfl
      (by decide)).2 c4org [] (by decide) (by decide) (by decide))⟩

-- ---------------------------------------------------------------------------
-- C7: zero document-name headers in an organization block
-- ---------------------------------------------------------------------------

theorem map_fst_pairing (f : PyStr → PyStr) :
    ∀ l : List PyStr, (l.map (fun d => (d, f d))).map Prod.fst = l := by
  intro l
  induction l with
  | nil => rfl
  | cons a t ih => simp only [List.map_cons, ih]

theorem sliceLoop_no_heads (normDoc : PyStr → PyStr) (docText : PyStr)
    (heads : List Ent) (jsonNames : List PyStr) (bend : Nat) :
    ∀ pairs : List (PyStr × PyStr),
      sliceLoop normDoc docText heads jsonNames bend pairs [] =
        ([], pairs.map Prod.fst) := by
  intro pairs
  induction pairs with
  | nil => rfl
  | cons p prest ih =>
    obtain ⟨jraw, jnorm⟩ := p
    simp [sliceLoop, ih]

/-- C7: in the hierarchical-anchor (Series I/II) variant, when an
organization block contains zero document-name header spans, the outcome
depends only on the expected-document count: exactly one expected
document makes the whole block that document with status `ok`; two or
more expected documents give status `doc_missing` with no document text
recovered, while the organization's block itself is still located (its
`org_block_text` is the full block slice). -/
theorem c7_zero_header_fallbacks (normDoc : PyStr → PyStr) (spans : List Ent)
    (docText : PyStr) (bstart bend : Nat) (jsonDocs : List PyStr) (orgRaw : PyStr)
    (hheads : spansWithin spans bstart bend Label.docNameL = []) :
    (∀ d, jsonDocs = [d] →
      sliceDocsInBlock normDoc spans docText bstart bend jsonDocs =
        ([⟨stripBoldN d, sliceN docText bstart bend⟩], [], StatusII.okII, 1) ∧
      orgEntryLocated normDoc spans docText orgRaw bstart bend jsonDocs =
        ⟨stripBoldN orgRaw, sliceN docText bstart bend,
          [⟨stripBoldN d, sliceN docText bstart bend⟩], StatusII.okII⟩) ∧
    (2 ≤ jsonDocs.length →
      sliceDocsInBlock normDoc spans docText bstart bend jsonDocs =
        ([], jsonDocs, StatusII.docMissingII, 0) ∧
      orgEntryLocated normDoc spans docText orgRaw bstart bend jsonDocs =
        ⟨stripBoldN orgRaw, sliceN docText bstart bend, [], StatusII.docMissingII⟩) := by
  have hs0 : sortByStart (spansWithin spans bstart bend Label.docNameL) = [] := by
    rw [hheads]; rfl
  constructor
  · rintro d rfl
    have h1 : sliceDocsInBlock normDoc spans docText bstart bend [d] =
        ([⟨stripBoldN d, sliceN docText bstart bend⟩], [], StatusII.okII, 1) := by
      simp [sliceDocsInBlock, hs0]
    exact ⟨h1, by simp [orgEntryLocated, h1]⟩
  · intro h2
    have hne1 : (jsonDocs.length == 1) = false := by
      simp only [beq_eq_false_iff_ne]
      omega
    have hJne : jsonDocs.isEmpty = false := by
      cases jsonDocs with
      | nil => simp at h2
      | cons a l => rfl
    have hloop := sliceLoop_no_heads normDoc docText [] (jsonDocs.map normDoc) bend
      (jsonDocs.map (fun d => (d, normDoc d)))
    have hfst : (jsonDocs.map (fun d => (d, normDoc d))).map Prod.fst = jsonDocs :=
      map_fst_pairing normDoc jsonDocs
    have h1 : sliceDocsInBlock normDoc spans docText bstart bend jsonDocs =
        ([], jsonDocs, StatusII.docMissingII, 0) := by
      simp [sliceDocsInBlock, hs0, hne1, hloop, hfst, hJne]
    exact ⟨h1, by simp [orgEntryLocated, h1]⟩

/-- Witness for C7: Scenario C — a located block with no headers, for one
and for two expected documents. -/
theorem c7_zero_header_fallbacks_witness :
    spansWithin [] 2 8 Label.docNameL = [] ∧
      sliceDocsInBlock id [] c7text 2 8 [c7docA] =
        ([⟨stripBoldN c7docA, sliceN c7text 2 8⟩], [], StatusII.okII, 1) ∧
      sliceDocsInBlock id [] c7text 2 8 [c7docA, c7docB] =
        ([], [c7docA, c7docB], StatusII.docMissingII, 0) ∧
      orgEntryLocated id [] c7text [79, 114, 103, 89] 2 8 [c7docA, c7docB] =
        ⟨stripBoldN [79, 114, 103, 89], sliceN c7text 2 8, [], StatusII.docMissingII⟩ :=
  ⟨rfl,
    ((c7_zero_header_fallbacks id [] c7text 2 8 [c7docA] [79, 114, 103, 89] rfl).1
      c7docA rfl).1,
    ((c7_zero_header_fallbacks id [] c7text 2 8 [c7docA, c7docB] [79, 114, 103, 89]
      rfl).2 (by decide)).1,
    ((c7_zero_header_fallbacks id [] c7text 2 8 [c7docA, c7docB] [79, 114, 103, 89]
      rfl).2 (by decide)).2⟩

/-- C6 counterexample: four consecutive organization spans whose gaps are
single spaces and whose four-way concatenation has a valid key; the claim
(extension by up to 3 following spans) would keep this extension, but the
builder checks the head plus at most 2 followers and discards everything. -/
theorem c6_counterexample :
    c6spans = c6head :: c6rest ∧
      gapsOk c6text c6head c6rest 3 = true ∧
      c6keys.contains (orgKeyN (concatUpTo c6head c6rest 3)) = true ∧
      coalesceAnchors c6text c6keys c6spans = [] ∧
      buildOrgBlocksCoalesced c6text c6spans c6keys = [] := by
  refine ⟨by decide, by decide, by decide, by decide, by decide⟩

end Bulletin
